import Mathlib

set_option maxHeartbeats 1000000

namespace Tiramisu

/-- A named integer set, the shallow model of an isl_set: a tuple name, a
dimension count, and the set of integer tuples it contains. -/
@[ext]
structure IslSet where
  tuple : String
  dim : Nat
  mem : List Int → Prop

/-- A named integer relation, the shallow model of an isl_map: the domain and
range tuple names, the two dimension counts, and the relation itself. -/
@[ext]
structure IslMap where
  dom_tuple : String
  ran_tuple : String
  dom_dim : Nat
  ran_dim : Nat
  rel : List Int → List Int → Prop

/-- Modelled from the spec: the external Presburger contract
apply(Set, Relation) -> Set of spec section 6 (the code calls the external
isl_set_apply, whose sources are not part of the repository): the image of
the set under the relation, landing in the relation's range space. -/
def isl_set_apply (s : IslSet) (m : IslMap) : IslSet :=
  ⟨m.ran_tuple, m.ran_dim, fun y => ∃ x, s.mem x ∧ m.rel x y⟩

/-- The fields of coli::computation that the claims mention
(src/include/coli/core.h, class computation).  After the constructor has run,
the iteration set and the schedule are always present, so they are carried
directly; the time-processor set and the access relation start unset (NULL). -/
structure computation where
  time_processor_space : Option IslSet
  iter_space : IslSet
  schedule : IslMap
  name : String
  access : Option IslMap

/-- The identity schedule built by computation::set_identity_schedule
(src/include/coli/core.h lines 739-754): the relation carrying the
iteration-set tuple name on both sides that maps every point of the iteration
set to itself. -/
def identity_schedule (s : IslSet) : IslMap :=
  ⟨s.tuple, s.tuple, s.dim, s.dim, fun x y => x = y ∧ s.mem x⟩

/-- The computation constructor (src/include/coli/core.h lines 599-623): the
name is read off the iteration set's tuple name
(isl_space_get_tuple_name of the iteration space) and the schedule is
initialised by set_identity_schedule; the time-processor set and the access
relation start unset. -/
def computation.mk_from_iter (iter : IslSet) : computation :=
  ⟨none, iter, identity_schedule iter, iter.tuple, none⟩

/-- computation::set_schedule (src/include/coli/core.h lines 788-797): the
assertion that the domain and range tuple names agree (strcmp == 0) is
modelled by returning none when they differ; otherwise the schedule field is
overwritten. -/
def computation.set_schedule (c : computation) (m : IslMap) : Option computation :=
  if m.dom_tuple = m.ran_tuple then some { c with schedule := m } else none

/-- computation::gen_time_processor_IR (src/include/coli/core.h lines
716-724): apply the schedule to the iteration set and store the result in
time_processor_space; the iteration set and the schedule are only read. -/
def computation.gen_time_processor_IR (c : computation) : computation :=
  { c with time_processor_space := some (isl_set_apply c.iter_space c.schedule) }

/-- computation::get_time_processor_identity_relation (src/include/coli/core.h
lines 670-678): requires the time-processor set to have been computed (the
assert), builds the identity map on its space (isl_map_identity of
isl_space_map_from_set), erases the output tuple name to the empty string,
and only reads the stored state; the embedding returns the state alongside
the result so that the absence of mutation is expressible. -/
def computation.get_time_processor_identity_relation (c : computation) :
    Option (IslMap × computation) :=
  match c.time_processor_space with
  | none => none
  | some s => some (⟨s.tuple, "", s.dim, s.dim, fun x y => x = y⟩, c)

/-- Modelled from the spec: the effect of split(d, f) on one point of the
output (time) space, spec section 4.C: dimension d is replaced by its
quotient and its remainder by f (floor division, remainder in [0, f) for
positive f), every later dimension shifting right by one. -/
def splitPoint (d : Nat) (f : Int) (t : List Int) : List Int :=
  t.take d ++ [(t.getD d 0).fdiv f, (t.getD d 0).fmod f] ++ t.drop (d + 1)

/-- Modelled from the spec: interchange swaps the output dimensions d1 and d2
(spec section 4.C). -/
def interchangePoint (d1 d2 : Nat) (t : List Int) : List Int :=
  (t.set d1 (t.getD d2 0)).set d2 (t.getD d1 0)

/-- Modelled from the spec: tile(d, d+1, f1, f2) rewrites the output
dimensions (d, d+1) into (d quotient by f1, d+1 quotient by f2, d remainder
by f1, d+1 remainder by f2) at levels d, d+1, d+2, d+3 (spec section 4.C:
after the operation the loop order is the two outer iterators then the two
inner iterators). -/
def tilePoint (d : Nat) (f1 f2 : Int) (t : List Int) : List Int :=
  t.take d ++ [(t.getD d 0).fdiv f1, (t.getD (d + 1) 0).fdiv f2,
               (t.getD d 0).fmod f1, (t.getD (d + 1) 0).fmod f2] ++ t.drop (d + 2)

/-- Composing a schedule with a rewrite of its output space: the new relation
relates x to the rewritten image of every point x was related to. -/
def IslMap.post (m : IslMap) (g : List Int → List Int) (dOut : Nat) : IslMap :=
  ⟨m.dom_tuple, m.ran_tuple, m.dom_dim, dOut, fun x y => ∃ z, m.rel x z ∧ y = g z⟩

/-- Modelled from the spec: computation::split (declared at
src/include/coli/core.h lines 764-769, body not among the sources): the
schedule's output space is rewritten by splitPoint, the out-arity grows by
one (spec section 4.C). -/
def split_sched (m : IslMap) (d : Nat) (f : Int) : IslMap :=
  m.post (splitPoint d f) (m.ran_dim + 1)

/-- Modelled from the spec: computation::interchange (declared at
src/include/coli/core.h lines 771-775, body not among the sources): the two
output dimensions are swapped, the arity is unchanged. -/
def interchange_sched (m : IslMap) (d1 d2 : Nat) : IslMap :=
  m.post (interchangePoint d1 d2) m.ran_dim

/-- Modelled from the spec: computation::tile (declared at
src/include/coli/core.h lines 756-762, body not among the sources): the
output dimensions d and d+1 are tiled with factors f1 and f2, the out-arity
grows by two (spec section 4.C). -/
def tile_sched (m : IslMap) (d : Nat) (f1 f2 : Int) : IslMap :=
  m.post (tilePoint d f1 f2) (m.ran_dim + 2)

/-- A named point of a union set: a tuple name together with an integer tuple. -/
abbrev NamedPoint := String × List Int

/-- The shallow model of an isl_union_set: a set of named points. -/
abbrev IslUnionSet := Set NamedPoint

/-- The shallow model of an isl_union_map: a set of pairs of named points. -/
abbrev IslUnionMap := Set (NamedPoint × NamedPoint)

/-- Modelled from the spec: the external contract
intersect_domain(Relation, Set) -> Relation of spec section 6 (the code calls
the external isl_union_map_intersect_domain): keep the pairs of the relation
whose source lies in the given set. -/
def isl_union_map_intersect_domain (m : IslUnionMap) (s : IslUnionSet) : IslUnionMap :=
  { p | p ∈ m ∧ p.1 ∈ s }

/-- The configuration of an isl AST build as library::gen_isl_ast prepares it:
the atomic-upper-bound option and whether each of the two callbacks
(for_code_generator_after_for and stmt_code_generator) has been installed. -/
structure AstBuildConfig where
  atomic_upper_bound : Int
  after_each_for_installed : Bool
  at_each_domain_installed : Bool
  deriving DecidableEq

/-- The fields of coli::library that gen_isl_ast reads and writes.  The bodies
of get_time_processor_representation and get_time_processor_identity_relation
are not among the sources, so their values are carried as stored state; NULL
is modelled by none. -/
structure LibraryState (α : Type) where
  ast : Option α
  time_processor_representation : Option IslUnionSet
  time_processor_identity_relation : Option IslUnionMap

/-- library::gen_isl_ast (src/include/coli/core.h lines 295-315), over an
abstract external AST generator B standing for
isl_ast_build_node_from_schedule_map: assert that both time-processor values
are available, allocate a build, set the atomic-upper-bound option to 1,
install the after-each-for callback and then the at-each-domain callback,
intersect the domain of the time-processor identity relation with the
time-processor representation, and store the AST built from the result. -/
def gen_isl_ast {α : Type} (B : AstBuildConfig → IslUnionMap → α)
    (lib : LibraryState α) : Option (LibraryState α) :=
  match lib.time_processor_representation, lib.time_processor_identity_relation with
  | some rep, some ident =>
    let build0 : AstBuildConfig := ⟨0, false, false⟩
    let build1 := { build0 with atomic_upper_bound := 1 }
    let build2 := { build1 with after_each_for_installed := true }
    let build3 := { build2 with at_each_domain_installed := true }
    let sched := isl_union_map_intersect_domain ident rep
    some { lib with ast := some (B build3 sched) }
  | _, _ => none

/-- The shallow model of the std::map from computation name to loop level
used for library::parallel_dimensions and library::vector_dimensions
(src/include/coli/core.h lines 135-136): a key is bound to at most one
value. -/
abbrev TagMap := String → Option Int

/-- library::parallelize (src/include/coli/core.h lines 167-178): the two
assertions (non-empty name, non-negative level) are modelled by returning
none when they fail; otherwise the map is consulted and the stored level is
compared with the queried one. -/
def parallelize (m : TagMap) (comp : String) (lev : Int) : Option Bool :=
  if comp.length > 0 ∧ 0 ≤ lev then
    some (match m comp with
          | none => false
          | some v => v == lev)
  else none

/-- library::vectorize (src/include/coli/core.h lines 184-195): identical to
parallelize but over the vector-dimensions map. -/
def vectorize (m : TagMap) (comp : String) (lev : Int) : Option Bool :=
  if comp.length > 0 ∧ 0 ≤ lev then
    some (match m comp with
          | none => false
          | some v => v == lev)
  else none

/-- Modelled from the spec: library::add_parallel_dimension (declared at
src/include/coli/core.h line 203, body not among the sources); spec section
4.C: record (C, L) in the tag map, re-tagging replaces. -/
def add_parallel_dimension (m : TagMap) (computation_name : String) (vec_dim : Int) : TagMap :=
  fun s => if s = computation_name then some vec_dim else m s

/-- Modelled from the spec: library::add_vector_dimension (declared at
src/include/coli/core.h line 211, body not among the sources); spec section
4.C: record (C, L) in the tag map, re-tagging replaces. -/
def add_vector_dimension (m : TagMap) (computation_name : String) (vec_dim : Int) : TagMap :=
  fun s => if s = computation_name then some vec_dim else m s

/-- A schedule transformation issued against a computation. -/
inductive SchedTransform where
  | split (d : Nat) (f : Int)
  | interchange (d1 d2 : Nat)
  | tile (d : Nat) (f1 f2 : Int)

/-- Applying one schedule transformation to a computation rewrites only the
schedule (spec section 4.C; the bodies of tile, split and interchange are not
among the sources and are modelled from the spec). -/
def computation.apply_transform (c : computation) : SchedTransform → computation
  | .split d f => { c with schedule := split_sched c.schedule d f }
  | .interchange d1 d2 => { c with schedule := interchange_sched c.schedule d1 d2 }
  | .tile d f1 f2 => { c with schedule := tile_sched c.schedule d f1 f2 }

lemma splitPoint_cons (d : Nat) (f : Int) (a : Int) (t : List Int) :
    splitPoint (d + 1) f (a :: t) = a :: splitPoint d f t := by
  simp [splitPoint]

lemma interchangePoint_cons (d1 d2 : Nat) (a : Int) (t : List Int) :
    interchangePoint (d1 + 1) (d2 + 1) (a :: t) = a :: interchangePoint d1 d2 t := by
  simp [interchangePoint]

lemma tilePoint_cons (d : Nat) (f1 f2 : Int) (a : Int) (t : List Int) :
    tilePoint (d + 1) f1 f2 (a :: t) = a :: tilePoint d f1 f2 t := by
  simp [tilePoint]

/-- The pointwise form of the tiling decomposition: on any output tuple that
is long enough, tiling dimensions d and d+1 is the same rewrite as splitting
d, splitting d+2 and interchanging d+1 with d+2. -/
lemma tile_as_splits (d : Nat) (f1 f2 : Int) (t : List Int) (h : d + 1 < t.length) :
    interchangePoint (d + 1) (d + 2) (splitPoint (d + 2) f2 (splitPoint d f1 t))
      = tilePoint d f1 f2 t := by
  induction d generalizing t with
  | zero =>
    match t, h with
    | u :: v :: rest, _ => rfl
  | succ d ih =>
    match t, h with
    | a :: t, h =>
      have h' : d + 1 < t.length := by simpa using h
      calc interchangePoint (d + 2) (d + 3) (splitPoint (d + 3) f2 (splitPoint (d + 1) f1 (a :: t)))
          = a :: interchangePoint (d + 1) (d + 2) (splitPoint (d + 2) f2 (splitPoint d f1 t)) := by
            rw [splitPoint_cons, splitPoint_cons, interchangePoint_cons]
        _ = a :: tilePoint d f1 f2 t := by rw [ih t h']
        _ = tilePoint (d + 1) f1 f2 (a :: t) := (tilePoint_cons d f1 f2 a t).symm

lemma apply_transform_fields (c : computation) (t : SchedTransform) :
    ((c.apply_transform t).schedule.dom_tuple = c.schedule.dom_tuple) ∧
    ((c.apply_transform t).iter_space = c.iter_space) := by
  cases t <;>
    simp [computation.apply_transform, split_sched, interchange_sched, tile_sched, IslMap.post]

lemma foldl_transform_invariant (ts : List SchedTransform) (c : computation)
    (h : c.schedule.dom_tuple = c.iter_space.tuple) :
    (ts.foldl computation.apply_transform c).schedule.dom_tuple
      = (ts.foldl computation.apply_transform c).iter_space.tuple := by
  induction ts generalizing c with
  | nil => exact h
  | cons t ts ih =>
    refine ih (c.apply_transform t) ?_
    rw [(apply_transform_fields c t).1, (apply_transform_fields c t).2]
    exact h

/-- C1: for every computation the domain tuple name of the schedule equals the
iteration-set tuple name, before and after any sequence of schedule
transformations; set_schedule rejects any map whose domain and range tuple
names differ; and the constructor derives the computation's name from the
iteration set's tuple name. -/
theorem C1_schedule_domain_tuple_invariant :
    (∀ iter : IslSet, (computation.mk_from_iter iter).name = iter.tuple) ∧
    (∀ (c : computation) (m : IslMap),
        m.dom_tuple ≠ m.ran_tuple → c.set_schedule m = none) ∧
    (∀ (iter : IslSet) (ts : List SchedTransform),
        (ts.foldl computation.apply_transform (computation.mk_from_iter iter)).schedule.dom_tuple
          = (ts.foldl computation.apply_transform (computation.mk_from_iter iter)).iter_space.tuple) := by
  refine ⟨fun iter => rfl, fun c m h => ?_, fun iter ts => ?_⟩
  · simp [computation.set_schedule, h]
  · exact foldl_transform_invariant ts (computation.mk_from_iter iter) rfl

def c1CompEx : computation := computation.mk_from_iter ⟨"A", 1, fun _ => True⟩

/-- Witness for C1: set_schedule really rejects a concrete map whose domain
and range tuple names differ. -/
theorem C1_schedule_domain_tuple_invariant_witness :
    c1CompEx.set_schedule ⟨"A", "B", 1, 1, fun _ _ => True⟩ = none :=
  C1_schedule_domain_tuple_invariant.2.1 c1CompEx ⟨"A", "B", 1, 1, fun _ _ => True⟩ (by decide)

/-- C2: for any dimension d and positive factors f1, f2, tiling dimensions
(d, d+1) produces a schedule with the same image on the iteration set as the
sequence split(d, f1); split(d+2, f2); interchange(d+1, d+2), provided the
schedule's outputs live in its declared output arity and d+1 is inside it. -/
theorem C2_tile_equals_splits_interchange :
    ∀ (iter : IslSet) (S : IslMap) (d : Nat) (f1 f2 : Int),
      0 < f1 → 0 < f2 →
      (∀ x y, S.rel x y → y.length = S.ran_dim) →
      d + 1 < S.ran_dim →
      isl_set_apply iter (tile_sched S d f1 f2)
        = isl_set_apply iter
            (interchange_sched (split_sched (split_sched S d f1) (d + 2) f2) (d + 1) (d + 2)) := by
  intro iter S d f1 f2 _ _ hlen hd
  refine IslSet.ext rfl rfl ?_
  funext y
  apply propext
  simp only [isl_set_apply, tile_sched, split_sched, interchange_sched, IslMap.post]
  constructor
  · rintro ⟨x, hx, z, hz, rfl⟩
    refine ⟨x, hx, splitPoint (d + 2) f2 (splitPoint d f1 z),
      ⟨splitPoint d f1 z, ⟨z, hz, rfl⟩, rfl⟩, ?_⟩
    exact (tile_as_splits d f1 f2 z (by rw [hlen x z hz]; exact hd)).symm
  · rintro ⟨x, hx, z2, ⟨z1, ⟨z0, hz0, rfl⟩, rfl⟩, rfl⟩
    exact ⟨x, hx, z0, hz0, tile_as_splits d f1 f2 z0 (by rw [hlen x z0 hz0]; exact hd)⟩

def c2IterEx : IslSet := ⟨"S", 2, fun t => t = [5, 7]⟩

def c2SchedEx : IslMap := ⟨"S", "S", 2, 2, fun x y => y = x ∧ x.length = 2⟩

/-- Witness for C2: the tiling equivalence evaluated on a concrete iteration
set and a concrete schedule with factors 2 and 3 at dimension 0. -/
theorem C2_tile_equals_splits_interchange_witness :
    ((0 : Int) < 2) ∧ ((0 : Int) < 3) ∧ ((0 : Nat) + 1 < c2SchedEx.ran_dim) ∧
    isl_set_apply c2IterEx (tile_sched c2SchedEx 0 2 3)
      = isl_set_apply c2IterEx
          (interchange_sched (split_sched (split_sched c2SchedEx 0 2) 2 3) 1 2) :=
  ⟨by decide, by decide, by decide,
   C2_tile_equals_splits_interchange c2IterEx c2SchedEx 0 2 3 (by decide) (by decide)
     (fun x y h => by rw [h.1]; exact h.2) (by decide)⟩

/-- C4: gen_time_processor_IR stores the image of the iteration set under the
schedule relation as the time-processor representation and leaves the
iteration set and the schedule unchanged. -/
theorem C4_gen_time_processor_is_apply :
    ∀ c : computation,
      (c.gen_time_processor_IR).time_processor_space
          = some (isl_set_apply c.iter_space c.schedule) ∧
      (c.gen_time_processor_IR).iter_space = c.iter_space ∧
      (c.gen_time_processor_IR).schedule = c.schedule :=
  fun _ => ⟨rfl, rfl, rfl⟩

/-- C5: once the time-processor representation is computed,
get_time_processor_identity_relation returns the identity relation on the
time-processor space with the output tuple name erased to the empty string,
and hands the computation back unmodified. -/
theorem C5_time_processor_identity_relation :
    ∀ (c : computation) (s : IslSet),
      c.time_processor_space = some s →
      ∃ m : IslMap,
        c.get_time_processor_identity_relation = some (m, c) ∧
        m.dom_tuple = s.tuple ∧ m.ran_tuple = "" ∧
        m.dom_dim = s.dim ∧ m.ran_dim = s.dim ∧
        (∀ x y, m.rel x y ↔ x = y) := by
  intro c s h
  refine ⟨⟨s.tuple, "", s.dim, s.dim, fun x y => x = y⟩, ?_, rfl, rfl, rfl, rfl, fun x y => Iff.rfl⟩
  simp [computation.get_time_processor_identity_relation, h]

def c5CompEx : computation :=
  { computation.mk_from_iter ⟨"S", 1, fun _ => True⟩ with
      time_processor_space := some ⟨"S", 1, fun t => t = [0]⟩ }

/-- Witness for C5: the identity relation of a concrete computation whose
time-processor set has been computed. -/
theorem C5_time_processor_identity_relation_witness :
    ∃ m : IslMap,
      c5CompEx.get_time_processor_identity_relation = some (m, c5CompEx) ∧
      m.dom_tuple = "S" ∧ m.ran_tuple = "" ∧
      m.dom_dim = 1 ∧ m.ran_dim = 1 ∧
      (∀ x y, m.rel x y ↔ x = y) :=
  C5_time_processor_identity_relation c5CompEx ⟨"S", 1, fun t => t = [0]⟩ rfl

/-- C6: gen_isl_ast stores the AST built from exactly the time-processor
identity relation intersected on its domain with the time-processor
representation, and the build handed to the external generator has the
atomic-upper-bound option set to 1 and both callbacks installed. -/
theorem C6_gen_isl_ast_schedule_and_build :
    ∀ (α : Type) (B : AstBuildConfig → IslUnionMap → α) (lib : LibraryState α)
      (rep : IslUnionSet) (ident : IslUnionMap),
      lib.time_processor_representation = some rep →
      lib.time_processor_identity_relation = some ident →
      gen_isl_ast B lib
        = some { lib with
                   ast := some (B ⟨1, true, true⟩
                            (isl_union_map_intersect_domain ident rep)) } := by
  intro α B lib rep ident h1 h2
  simp [gen_isl_ast, h1, h2]

def c6LibEx : LibraryState Nat := ⟨none, some Set.univ, some Set.univ⟩

/-- Witness for C6: gen_isl_ast on a concrete library state whose two
time-processor values are set. -/
theorem C6_gen_isl_ast_schedule_and_build_witness :
    gen_isl_ast (fun _ _ => (0 : Nat)) c6LibEx
      = some { c6LibEx with ast := some 0 } :=
  C6_gen_isl_ast_schedule_and_build Nat (fun _ _ => 0) c6LibEx Set.univ Set.univ rfl rfl

/-- C10: each tag map associates at most one loop level to a computation name,
so parallelize and vectorize answer true for at most one level per name, and
re-tagging a computation replaces the previous level instead of
accumulating. -/
theorem C10_tag_maps_single_level :
    (∀ (m : TagMap) (c : String) (l1 l2 : Int),
        parallelize m c l1 = some true → parallelize m c l2 = some true → l1 = l2) ∧
    (∀ (m : TagMap) (c : String) (l1 l2 : Int),
        vectorize m c l1 = some true → vectorize m c l2 = some true → l1 = l2) ∧
    (∀ (m : TagMap) (c : String) (l1 l2 : Int),
        add_parallel_dimension (add_parallel_dimension m c l1) c l2
          = add_parallel_dimension m c l2) ∧
    (∀ (m : TagMap) (c : String) (l1 l2 : Int),
        add_vector_dimension (add_vector_dimension m c l1) c l2
          = add_vector_dimension m c l2) := by
  refine ⟨fun m c l1 l2 h1 h2 => ?_, fun m c l1 l2 h1 h2 => ?_,
          fun m c l1 l2 => ?_, fun m c l1 l2 => ?_⟩
  · unfold parallelize at h1 h2
    by_cases k1 : c.length > 0 ∧ (0 : Int) ≤ l1
    · rw [if_pos k1] at h1
      by_cases k2 : c.length > 0 ∧ (0 : Int) ≤ l2
      · rw [if_pos k2] at h2
        cases hm : m c with
        | none => rw [hm] at h1; simp at h1
        | some v =>
          rw [hm] at h1 h2
          have e1 : v = l1 := by simpa using h1
          have e2 : v = l2 := by simpa using h2
          rw [← e1, ← e2]
      · rw [if_neg k2] at h2; cases h2
    · rw [if_neg k1] at h1; cases h1
  · unfold vectorize at h1 h2
    by_cases k1 : c.length > 0 ∧ (0 : Int) ≤ l1
    · rw [if_pos k1] at h1
      by_cases k2 : c.length > 0 ∧ (0 : Int) ≤ l2
      · rw [if_pos k2] at h2
        cases hm : m c with
        | none => rw [hm] at h1; simp at h1
        | some v =>
          rw [hm] at h1 h2
          have e1 : v = l1 := by simpa using h1
          have e2 : v = l2 := by simpa using h2
          rw [← e1, ← e2]
      · rw [if_neg k2] at h2; cases h2
    · rw [if_neg k1] at h1; cases h1
  · funext s
    unfold add_parallel_dimension
    split_ifs <;> rfl
  · funext s
    unfold add_vector_dimension
    split_ifs <;> rfl

def c10MapEx : TagMap := fun s => if s = "S0" then some 2 else none

/-- Witness for C10: applying the at-most-one-level facts on a concrete tag
map binding S0 to level 2. -/
theorem C10_tag_maps_single_level_witness : ((2 : Int) = 2) ∧ ((2 : Int) = 2) :=
  ⟨C10_tag_maps_single_level.1 c10MapEx "S0" 2 2 (by decide) (by decide),
   C10_tag_maps_single_level.2.1 c10MapEx "S0" 2 2 (by decide) (by decide)⟩

/-- A loop node of the auto-scheduler's syntax-tree view
(tiramisu::auto_scheduler::ast_node): iterator name, lower and upper bound,
the unrolled flag, the depth, the child loops, and the computation names
attached at this level.  The class itself is declared outside the sources;
the fields are the ones tiramisu_states_generator.cpp reads. -/
inductive ast_node : Type where
  | node (name : String) (low_bound : Int) (up_bound : Int) (unrolled : Bool)
         (depth : Int) (children : List ast_node) (computations : List String)

def ast_node.name : ast_node → String
  | .node nm _ _ _ _ _ _ => nm

def ast_node.low_bound : ast_node → Int
  | .node _ lo _ _ _ _ _ => lo

def ast_node.up_bound : ast_node → Int
  | .node _ _ hi _ _ _ _ => hi

def ast_node.unrolled : ast_node → Bool
  | .node _ _ _ un _ _ _ => un

def ast_node.depth : ast_node → Int
  | .node _ _ _ _ dp _ _ => dp

def ast_node.children : ast_node → List ast_node
  | .node _ _ _ _ _ ch _ => ch

lemma ast_node.children_sizeOf_lt (n : ast_node) : sizeOf n.children < sizeOf n := by
  cases n with
  | node nm lo hi un dp ch comps =>
    simp [ast_node.children]
    omega

lemma forest_strong_induction (P : List ast_node → Prop)
    (h : ∀ level, (∀ n ∈ level, P n.children) → P level) : ∀ level, P level := by
  have key : ∀ (k : Nat) (level : List ast_node), sizeOf level < k → P level := by
    intro k
    induction k with
    | zero => intro level h0; omega
    | succ k ih =>
      intro level hlt
      refine h level (fun n hn => ih n.children ?_)
      have h1 : sizeOf n < sizeOf level := List.sizeOf_lt_of_mem hn
      have h2 : sizeOf n.children < sizeOf n := ast_node.children_sizeOf_lt n
      omega
  exact fun level => key (sizeOf level + 1) level (by omega)

lemma node_strong_induction (P : ast_node → Prop)
    (h : ∀ n : ast_node, (∀ m ∈ n.children, P m) → P n) : ∀ n, P n := by
  have key : ∀ (k : Nat) (n : ast_node), sizeOf n < k → P n := by
    intro k
    induction k with
    | zero => intro n h0; omega
    | succ k ih =>
      intro n hlt
      refine h n (fun m hm => ih m ?_)
      have h1 : sizeOf m < sizeOf n.children := List.sizeOf_lt_of_mem hm
      have h2 : sizeOf n.children < sizeOf n := ast_node.children_sizeOf_lt n
      omega
  exact fun n => key (sizeOf n + 1) n (by omega)

/-- The optimization kinds of the auto-scheduler. -/
inductive optimization_type : Type where
  | FUSION | TILING | INTERCHANGE | UNROLLING
  deriving DecidableEq

/-- The optimization_info record filled by the exhaustive generator; only the
members assigned by tiramisu_states_generator.cpp are modelled, members the
pass leaves unassigned are set to 0. -/
structure optimization_info where
  type : optimization_type
  node : ast_node
  nb_l : Int
  l0 : Int
  l1 : Int
  l0_fact : Int
  comps : List String

/-- The syntax-tree view: the root loops plus the list of OptimizationInfo
records attached to the tree. -/
structure syntax_tree where
  roots : List ast_node
  optims_info : List optimization_info

/-- The fusion condition of generate_fusions
(src/src/auto_scheduler/tiramisu_states_generator.cpp lines 43-56): an
ordered pair of nodes of the same level qualifies when neither is unrolled
and the iterator name and both bounds coincide. -/
def qualifying_fusion_pair (a b : ast_node) : Bool :=
  !a.unrolled && !b.unrolled && a.name == b.name
    && a.low_bound == b.low_bound && a.up_bound == b.up_bound

/-- The double loop of generate_fusions
(src/src/auto_scheduler/tiramisu_states_generator.cpp lines 43-76) over one
tree level carrying absolute indices: skip an unrolled i-node, skip unrolled
j-nodes, and emit one record per matching pair, with l0 = i, l1 = j and
l0_fact = the i-node's depth.  rm and lm stand for
get_rightmost_computation and get_leftmost_computation, whose bodies are not
among the sources. -/
def fusion_pair_infos (rm lm : ast_node → String) :
    List (Nat × ast_node) → List optimization_info
  | [] => []
  | (i, a) :: rest =>
    (if a.unrolled then []
     else rest.filterMap (fun p =>
       if !p.2.unrolled && a.name == p.2.name && a.low_bound == p.2.low_bound
            && a.up_bound == p.2.up_bound
       then some { type := .FUSION, node := a, nb_l := 2, l0 := (i : Int), l1 := (p.1 : Int),
                   l0_fact := a.depth, comps := [rm a, lm p.2] }
       else none))
    ++ fusion_pair_infos rm lm rest

/-- exhaustive_generator::generate_fusions
(src/src/auto_scheduler/tiramisu_states_generator.cpp lines 41-80): each
matching pair of the current level yields one candidate, a clone of the whole
syntax tree carrying the single new record; afterwards the pass recurses into
the children of every node of the level. -/
def generate_fusions (ast : syntax_tree) (rm lm : ast_node → String)
    (tree_level : List ast_node) : List syntax_tree :=
  ((fusion_pair_infos rm lm tree_level.enum).map (fun info => ⟨ast.roots, [info]⟩))
    ++ (tree_level.attach.map (fun n => generate_fusions ast rm lm n.1.children)).flatten
termination_by sizeOf tree_level
decreasing_by
  have h1 : sizeOf n.1 < sizeOf tree_level := List.sizeOf_lt_of_mem n.2
  have h2 : sizeOf n.1.children < sizeOf n.1 := ast_node.children_sizeOf_lt n.1
  omega

/-- The number of qualifying ordered pairs (i, j), i < j, within one level. -/
def level_fusion_pair_count : List ast_node → Nat
  | [] => 0
  | a :: rest => rest.countP (fun b => qualifying_fusion_pair a b) + level_fusion_pair_count rest

/-- The number of qualifying sibling pairs over all levels of the forest. -/
def total_fusion_pair_count (tree_level : List ast_node) : Nat :=
  level_fusion_pair_count tree_level
    + (tree_level.attach.map (fun n => total_fusion_pair_count n.1.children)).sum
termination_by sizeOf tree_level
decreasing_by
  have h1 : sizeOf n.1 < sizeOf tree_level := List.sizeOf_lt_of_mem n.2
  have h2 : sizeOf n.1.children < sizeOf n.1 := ast_node.children_sizeOf_lt n.1
  omega

lemma filterMap_ite_length {α β : Type} (f : α → β) (p : α → Bool) (l : List α) :
    (l.filterMap (fun x => if p x then some (f x) else none)).length = l.countP p := by
  induction l with
  | nil => rfl
  | cons x xs ih =>
    simp only [List.filterMap_cons, List.countP_cons]
    by_cases h : p x
    · rw [if_pos h]
      simp [ih, h]
    · rw [if_neg h]
      simp [ih, h]

lemma fusion_pair_infos_length (rm lm : ast_node → String) (l : List (Nat × ast_node)) :
    (fusion_pair_infos rm lm l).length = level_fusion_pair_count (l.map Prod.snd) := by
  induction l with
  | nil => rfl
  | cons p rest ih =>
    obtain ⟨i, a⟩ := p
    simp only [fusion_pair_infos, level_fusion_pair_count, List.map_cons, List.length_append, ih]
    congr 1
    by_cases hu : a.unrolled
    · rw [if_pos hu]
      symm
      simp only [List.length_nil]
      rw [List.countP_eq_zero]
      intro b hb
      simp [qualifying_fusion_pair, hu]
    · rw [if_neg hu]
      rw [filterMap_ite_length
        (fun p : Nat × ast_node =>
          ({ type := .FUSION, node := a, nb_l := 2, l0 := (i : Int), l1 := (p.1 : Int),
             l0_fact := a.depth, comps := [rm a, lm p.2] } : optimization_info))
        (fun p : Nat × ast_node =>
          !p.2.unrolled && a.name == p.2.name && a.low_bound == p.2.low_bound
            && a.up_bound == p.2.up_bound) rest]
      rw [List.countP_map]
      apply List.countP_congr
      intro p _
      have hu' : a.unrolled = false := by simpa using hu
      simp [qualifying_fusion_pair, hu', Function.comp]

/-- The recursion equation of generate_fusions with the termination
bookkeeping removed: the pair candidates of the current level followed by the
candidates found below each member, in order. -/
lemma generate_fusions_eq (ast : syntax_tree) (rm lm : ast_node → String)
    (tree_level : List ast_node) :
    generate_fusions ast rm lm tree_level
      = ((fusion_pair_infos rm lm tree_level.enum).map (fun info => ⟨ast.roots, [info]⟩))
        ++ (tree_level.map (fun n => generate_fusions ast rm lm n.children)).flatten := by
  rw [generate_fusions]
  congr 1
  exact congrArg List.flatten
    (List.attach_map_val tree_level (fun m => generate_fusions ast rm lm m.children))

lemma total_fusion_pair_count_eq (tree_level : List ast_node) :
    total_fusion_pair_count tree_level
      = level_fusion_pair_count tree_level
        + (tree_level.map (fun n => total_fusion_pair_count n.children)).sum := by
  rw [total_fusion_pair_count]
  congr 1
  exact congrArg List.sum
    (List.attach_map_val tree_level (fun m => total_fusion_pair_count m.children))

lemma generate_fusions_length (ast : syntax_tree) (rm lm : ast_node → String) :
    ∀ tree_level, (generate_fusions ast rm lm tree_level).length
      = total_fusion_pair_count tree_level := by
  refine forest_strong_induction _ ?_
  intro level ihch
  rw [generate_fusions_eq, total_fusion_pair_count_eq]
  simp only [List.length_append, List.length_map, List.length_flatten, List.map_map]
  congr 1
  · rw [fusion_pair_infos_length, List.enum_map_snd]
  · congr 1
    exact List.map_congr_left (fun n hn => ihch n hn)

lemma generate_fusions_shape (ast : syntax_tree) (rm lm : ast_node → String) :
    ∀ tree_level, ∀ st ∈ generate_fusions ast rm lm tree_level,
      st.roots = ast.roots ∧ st.optims_info.length = 1 := by
  refine forest_strong_induction _ ?_
  intro level ihch st hst
  rw [generate_fusions_eq] at hst
  rcases List.mem_append.1 hst with h | h
  · rcases List.mem_map.1 h with ⟨info, _, rfl⟩
    exact ⟨rfl, rfl⟩
  · rcases List.mem_flatten.1 h with ⟨l, hl, hstl⟩
    rcases List.mem_map.1 hl with ⟨n, hn, rfl⟩
    exact ihch n hn st hstl

/-- C8: the fusion pass emits exactly one candidate for every ordered pair of
sibling loop nodes at the same tree level whose iterator name, lower bound
and upper bound all coincide and of which neither is unrolled, and each
candidate is a clone of the syntax tree carrying exactly one
OptimizationInfo record. -/
theorem C8_fusion_pass_candidates :
    ∀ (ast : syntax_tree) (rm lm : ast_node → String) (tree_level : List ast_node),
      (generate_fusions ast rm lm tree_level).length = total_fusion_pair_count tree_level ∧
      ∀ st ∈ generate_fusions ast rm lm tree_level,
        st.roots = ast.roots ∧ st.optims_info.length = 1 :=
  fun ast rm lm level =>
    ⟨generate_fusions_length ast rm lm level, generate_fusions_shape ast rm lm level⟩

def c8NodeA : ast_node := .node "i" 0 10 false 0 [] ["c0"]

def c8NodeB : ast_node := .node "i" 0 10 false 0 [] ["c1"]

def c8TreeEx : syntax_tree := ⟨[c8NodeA, c8NodeB], []⟩

def c8CandEx : syntax_tree :=
  ⟨c8TreeEx.roots,
   [{ type := .FUSION, node := c8NodeA, nb_l := 2, l0 := 0, l1 := 1,
      l0_fact := 0, comps := ["c", "c"] }]⟩

/-- Witness for C8: on a concrete pair of identical sibling loops the single
emitted candidate is the cloned tree with one record. -/
theorem C8_fusion_pass_candidates_witness :
    c8CandEx.roots = c8TreeEx.roots ∧ c8CandEx.optims_info.length = 1 :=
  (C8_fusion_pass_candidates c8TreeEx (fun _ => "c") (fun _ => "c") c8TreeEx.roots).2
    c8CandEx
    (by
      have h1 : generate_fusions c8TreeEx (fun _ => "c") (fun _ => "c") [] = [] := by
        rw [generate_fusions_eq]
        simp [fusion_pair_infos]
      have hlist : generate_fusions c8TreeEx (fun _ => "c") (fun _ => "c") c8TreeEx.roots
          = [c8CandEx] := by
        rw [generate_fusions_eq]
        simp only [c8TreeEx, c8CandEx, c8NodeA, c8NodeB, ast_node.children, List.map_cons,
          List.map_nil, List.flatten, h1, List.append_nil, List.enum, List.enumFrom,
          fusion_pair_infos, ast_node.unrolled, ast_node.name, ast_node.low_bound,
          ast_node.up_bound, ast_node.depth, List.filterMap_cons, List.filterMap_nil]
        norm_num
        exact h1
      rw [hlist]
      exact List.mem_singleton.mpr rfl)

/-- One node's interchange candidates
(src/src/auto_scheduler/tiramisu_states_generator.cpp lines 162-180): for
each i from depth+1 up to (excluding) the loop-levels chain depth, one
candidate with l0 = depth and l1 = i; bd stands for
get_loop_levels_chain_depth and gac for get_all_computations, whose bodies
are not among the sources. -/
def interchange_cands_at (bd : ast_node → Int) (gac : ast_node → List String)
    (ast : syntax_tree) (n : ast_node) : List syntax_tree :=
  List.map (fun k : Nat =>
      (⟨ast.roots, [{ type := .INTERCHANGE, node := n, nb_l := 2, l0 := n.depth,
                      l1 := n.depth + 1 + (k : Int), l0_fact := 0,
                      comps := gac n }]⟩ : syntax_tree))
    (List.range (bd n - (n.depth + 1)).toNat)

/-- exhaustive_generator::generate_interchanges
(src/src/auto_scheduler/tiramisu_states_generator.cpp lines 158-185): a node
that is not unrolled contributes one candidate per chain position, then the
pass recurses into every child. -/
def generate_interchanges (bd : ast_node → Int) (gac : ast_node → List String)
    (ast : syntax_tree) (n : ast_node) : List syntax_tree :=
  (if n.unrolled then [] else interchange_cands_at bd gac ast n)
    ++ (n.children.attach.map (fun m => generate_interchanges bd gac ast m.1)).flatten
termination_by sizeOf n
decreasing_by
  have h1 : sizeOf m.1 < sizeOf n.children := List.sizeOf_lt_of_mem m.2
  have h2 : sizeOf n.children < sizeOf n := ast_node.children_sizeOf_lt n
  omega

/-- The candidate count the code produces: unrolled nodes contribute
nothing, any other node contributes one candidate per depth strictly between
its own depth and its loop-levels chain depth. -/
def code_interchange_count (bd : ast_node → Int) (n : ast_node) : Nat :=
  (if n.unrolled then 0 else (bd n - n.depth - 1).toNat)
    + (n.children.attach.map (fun m => code_interchange_count bd m.1)).sum
termination_by sizeOf n
decreasing_by
  have h1 : sizeOf m.1 < sizeOf n.children := List.sizeOf_lt_of_mem m.2
  have h2 : sizeOf n.children < sizeOf n := ast_node.children_sizeOf_lt n
  omega

/-- The candidate count claim C9 describes: EVERY node contributes one
candidate per depth strictly between its own depth and its loop-levels chain
depth, with no exception for unrolled nodes. -/
def claimed_interchange_count (bd : ast_node → Int) (n : ast_node) : Nat :=
  (bd n - n.depth - 1).toNat
    + (n.children.attach.map (fun m => claimed_interchange_count bd m.1)).sum
termination_by sizeOf n
decreasing_by
  have h1 : sizeOf m.1 < sizeOf n.children := List.sizeOf_lt_of_mem m.2
  have h2 : sizeOf n.children < sizeOf n := ast_node.children_sizeOf_lt n
  omega

lemma generate_interchanges_eq (bd : ast_node → Int) (gac : ast_node → List String)
    (ast : syntax_tree) (n : ast_node) :
    generate_interchanges bd gac ast n
      = (if n.unrolled then [] else interchange_cands_at bd gac ast n)
        ++ (n.children.map (fun m => generate_interchanges bd gac ast m)).flatten := by
  rw [generate_interchanges]
  congr 1
  exact congrArg List.flatten
    (List.attach_map_val n.children (fun m => generate_interchanges bd gac ast m))

lemma code_interchange_count_eq (bd : ast_node → Int) (n : ast_node) :
    code_interchange_count bd n
      = (if n.unrolled then 0 else (bd n - n.depth - 1).toNat)
        + (n.children.map (fun m => code_interchange_count bd m)).sum := by
  rw [code_interchange_count]
  congr 1
  exact congrArg List.sum
    (List.attach_map_val n.children (fun m => code_interchange_count bd m))

lemma claimed_interchange_count_eq (bd : ast_node → Int) (n : ast_node) :
    claimed_interchange_count bd n
      = (bd n - n.depth - 1).toNat
        + (n.children.map (fun m => claimed_interchange_count bd m)).sum := by
  rw [claimed_interchange_count]
  congr 1
  exact congrArg List.sum
    (List.attach_map_val n.children (fun m => claimed_interchange_count bd m))

lemma generate_interchanges_length (bd : ast_node → Int) (gac : ast_node → List String)
    (ast : syntax_tree) :
    ∀ n, (generate_interchanges bd gac ast n).length = code_interchange_count bd n := by
  refine node_strong_induction _ ?_
  intro n ihch
  rw [generate_interchanges_eq, code_interchange_count_eq]
  simp only [List.length_append, List.length_map, List.length_flatten, List.map_map]
  congr 1
  · by_cases hu : n.unrolled
    · rw [if_pos hu, if_pos hu]
      rfl
    · rw [if_neg hu, if_neg hu]
      unfold interchange_cands_at
      rw [List.length_map, List.length_range]
      congr 1
      omega
  · congr 1
    exact List.map_congr_left (fun m hm => ihch m hm)

lemma generate_interchanges_shape (bd : ast_node → Int) (gac : ast_node → List String)
    (ast : syntax_tree) :
    ∀ n, ∀ st ∈ generate_interchanges bd gac ast n,
      st.roots = ast.roots ∧ st.optims_info.length = 1 := by
  refine node_strong_induction _ ?_
  intro n ihch st hst
  rw [generate_interchanges_eq] at hst
  rcases List.mem_append.1 hst with h | h
  · by_cases hu : n.unrolled
    · rw [if_pos hu] at h
      cases h
    · rw [if_neg hu] at h
      rcases List.mem_map.1 h with ⟨k, _, rfl⟩
      exact ⟨rfl, rfl⟩
  · rcases List.mem_flatten.1 h with ⟨l, hl, hstl⟩
    rcases List.mem_map.1 hl with ⟨m, hm, rfl⟩
    exact ihch m hm st hstl

def c9Child : ast_node := .node "j" 0 10 false 1 [] []

def c9Root : ast_node := .node "i" 0 10 true 0 [c9Child] []

def c9TreeEx : syntax_tree := ⟨[c9Root], []⟩

def c9bd : ast_node → Int := fun n => if n.depth == 0 then 2 else 0

/-- Counterexample for C9: on a tree whose root is unrolled and has a
one-step perfect-nest chain, the pass emits no candidate at all, while the
claim (which exempts no unrolled node) promises exactly one. -/
theorem C9_interchange_pass_counterexample :
    (generate_interchanges c9bd (fun _ => []) c9TreeEx c9Root).length
      ≠ claimed_interchange_count c9bd c9Root := by
  have hchild : generate_interchanges c9bd (fun _ => []) c9TreeEx c9Child = [] := by
    rw [generate_interchanges_eq]
    simp [c9Child, ast_node.unrolled, ast_node.children, ast_node.depth,
      interchange_cands_at, c9bd]
  have h0 : (generate_interchanges c9bd (fun _ => []) c9TreeEx c9Root).length = 0 := by
    rw [generate_interchanges_eq]
    simp [c9Root, ast_node.unrolled, ast_node.children, hchild]
  have hc : claimed_interchange_count c9bd c9Child = 0 := by
    rw [claimed_interchange_count_eq]
    simp [c9Child, ast_node.children, ast_node.depth, c9bd]
  have h1 : claimed_interchange_count c9bd c9Root = 1 := by
    rw [claimed_interchange_count_eq]
    simp [c9Root, ast_node.children, ast_node.depth, c9bd, hc]
  rw [h0, h1]
  decide

/-- C9 (amended): the interchange pass emits, for each loop node that is not
already unrolled, one candidate per depth strictly between the node's own
depth and the depth of its loop-levels chain, and each candidate is a clone
of the syntax tree carrying exactly one OptimizationInfo record. -/
theorem C9_interchange_pass_candidates :
    ∀ (bd : ast_node → Int) (gac : ast_node → List String) (ast : syntax_tree) (n : ast_node),
      (generate_interchanges bd gac ast n).length = code_interchange_count bd n ∧
      ∀ st ∈ generate_interchanges bd gac ast n,
        st.roots = ast.roots ∧ st.optims_info.length = 1 :=
  fun bd gac ast n =>
    ⟨generate_interchanges_length bd gac ast n, generate_interchanges_shape bd gac ast n⟩

def c9bd2 : ast_node → Int := fun _ => 3

def c9CandEx : syntax_tree :=
  ⟨c9TreeEx.roots,
   [{ type := .INTERCHANGE, node := c9Child, nb_l := 2, l0 := 1, l1 := 2,
      l0_fact := 0, comps := [] }]⟩

/-- Witness for C9: on a concrete non-unrolled node with a chain depth of 3
the single emitted candidate is the cloned tree with one record. -/
theorem C9_interchange_pass_candidates_witness :
    c9CandEx.roots = c9TreeEx.roots ∧ c9CandEx.optims_info.length = 1 :=
  (C9_interchange_pass_candidates c9bd2 (fun _ => []) c9TreeEx c9Child).2
    c9CandEx
    (by
      have hlist : generate_interchanges c9bd2 (fun _ => []) c9TreeEx c9Child
          = [c9CandEx] := by
        rw [generate_interchanges_eq]
        simp only [c9Child, c9CandEx, c9bd2, ast_node.unrolled, ast_node.children,
          ast_node.depth, interchange_cands_at, Bool.false_eq_true, if_false,
          List.map_cons, List.map_nil, List.flatten, List.append_nil]
        norm_num
        rfl
      rw [hlist]
      exact List.mem_singleton.mpr rfl)


/-- First index of a character in a character list (std::string::find). -/
def strFindCh : List Char → Char → Option Nat
  | [], _ => none
  | x :: xs, c => if x = c then some 0 else (strFindCh xs c).map (· + 1)

/-- First index of a substring in a character list (std::string::find). -/
def strFindSub : List Char → List Char → Option Nat
  | [], pat => if pat.isEmpty then some 0 else none
  | x :: xs, pat =>
    if pat.isPrefixOf (x :: xs) then some 0 else (strFindSub xs pat).map (· + 1)

/-- std::string::find(c, pos) with an int position: a negative int converts to
a huge size_t, which makes find return npos (modelled none), as does a
position past the end. -/
def cppFindChFrom (s : List Char) (c : Char) (pos : Int) : Option Nat :=
  if 0 ≤ pos ∧ pos ≤ (s.length : Int) then
    (strFindCh (s.drop pos.toNat) c).map (· + pos.toNat)
  else none

def cppFindSubFrom (s : List Char) (pat : List Char) (pos : Int) : Option Nat :=
  if 0 ≤ pos ∧ pos ≤ (s.length : Int) then
    (strFindSub (s.drop pos.toNat) pat).map (· + pos.toNat)
  else none

/-- std::string::substr(pos, len) with int arguments: an out-of-range
position throws (none); a negative length converts to a huge size_t and
yields the whole remainder. -/
def cppSubstr (s : List Char) (pos len : Int) : Option (List Char) :=
  if 0 ≤ pos ∧ pos ≤ (s.length : Int) then
    some ((s.drop pos.toNat).take (if len < 0 then s.length else len.toNat))
  else none

def strEraseAt (s : List Char) (pos len : Nat) : List Char :=
  s.take pos ++ s.drop (pos + len)

def strInsertAt (s : List Char) (pos : Nat) (t : List Char) : List Char :=
  s.take pos ++ t ++ s.drop pos

/-- Modelled from the spec: split_string(str, "and", v) (declared at
src/include/coli/core.h lines 32-33, body not among the sources); spec 4.B:
the constraint list is obtained by splitting the text at the conjunction
separator. -/
def splitAnd : List Char → List (List Char)
  | 'a' :: 'n' :: 'd' :: rest => [] :: splitAnd rest
  | c :: rest =>
    match splitAnd rest with
    | [] => [[c]]
    | p :: ps => (c :: p) :: ps
  | [] => [[]]

/-- Modelled from the spec: parser::space::parse (declared at
src/include/coli/core.h line 975, body not among the sources); spec 4.B: the
bracketed dimension text is split into the dimension names at the commas. -/
def splitComma : List Char → List (List Char)
  | [] => [[]]
  | c :: rest =>
    if c = ',' then [] :: splitComma rest
    else
      match splitComma rest with
      | [] => [[c]]
      | p :: ps => (c :: p) :: ps

def joinSep (sep : List Char) : List (List Char) → List Char
  | [] => []
  | [x] => x
  | x :: y :: xs => x ++ sep ++ joinSep sep (y :: xs)

/-- The record the literal parser parser::map fills: the parameters member is
declared in the class but never assigned by the constructor, so it stays
empty. -/
structure parsed_map where
  parameters : List (List Char)
  domain_name : List Char
  domain : List (List Char)
  range_name : List Char
  range : List (List Char)
  constraints : List (List Char)
  deriving DecidableEq, Repr

/-- parser::map::map (src/include/coli/core.h lines 1033-1088), faithful to
the size_t-to-int conversions of the original for strings shorter than 2^63
characters: a failed find stores npos, which reads as -1 in an int, as 0
after +1 and as -2 after -1; each assert(x != npos) aborts (none) exactly
when the stored int is -1; the final find(":")+1 can never read as npos, so
the constraint branch is always taken, and constraint::parse
(src/include/coli/core.h lines 989-994) asserts that its input is
non-empty. -/
def parser_map_of_str (s : List Char) : Option parsed_map :=
  let map_begin : Int := match strFindCh s '{' with | some i => (i : Int) + 1 | none => 0
  let map_end : Int := match strFindCh s '}' with | some i => (i : Int) - 1 | none => -2
  if map_begin = -1 then none else
  if map_end = -1 then none else
  let dsb : Int := match cppFindChFrom s '[' map_begin with | some i => (i : Int) + 1 | none => 0
  let dsb_pre : Int := match cppFindChFrom s '[' map_begin with | some i => (i : Int) - 1 | none => -2
  let dse : Int := match cppFindChFrom s ']' map_begin with | some i => (i : Int) - 1 | none => -2
  if dsb = -1 then none else
  if dse = -1 then none else
  match cppSubstr s map_begin (dsb_pre - map_begin + 1) with
  | none => none
  | some dom_name =>
  match cppSubstr s dsb (dse - dsb + 1) with
  | none => none
  | some dom_space_str =>
  let pos_arrow : Int := match cppFindSubFrom s ['-', '>'] dse with | some i => (i : Int) | none => -1
  let fca : Int := pos_arrow + 2
  if pos_arrow = -1 then none else
  let rsb : Int := match cppFindChFrom s '[' fca with | some i => (i : Int) + 1 | none => 0
  let rsb_pre : Int := match cppFindChFrom s '[' fca with | some i => (i : Int) - 1 | none => -2
  let rse : Int := match cppFindChFrom s ']' fca with | some i => (i : Int) - 1 | none => -2
  if rsb = -1 then none else
  if rse = -1 then none else
  match cppSubstr s fca (rsb_pre - fca + 1) with
  | none => none
  | some ran_name =>
  match cppSubstr s rsb (rse - rsb + 1) with
  | none => none
  | some ran_space_str =>
  let column_pos : Int := match strFindCh s ':' with | some i => (i : Int) + 1 | none => 0
  match cppSubstr s column_pos (map_end - column_pos + 1) with
  | none => none
  | some constraints_str =>
  if constraints_str.isEmpty then none
  else some ⟨[], dom_name, splitComma dom_space_str, ran_name, splitComma ran_space_str,
             splitAnd constraints_str⟩

/-- computation::set_identity_schedule (src/include/coli/core.h lines
739-754) at the level of the iteration-set text: erase the first brace of
each kind, truncate at the colon when the set has a constraint part, and
splice a copy of the domain tuple behind an arrow, either before the colon
or directly after the first closing bracket.  An erase at npos throws
out_of_range, modelled none. -/
def set_identity_schedule_str (s : List Char) : Option (List Char) :=
  match strFindCh s '{' with
  | none => none
  | some p1 =>
    let d1 := strEraseAt s p1 1
    match strFindCh d1 '}' with
    | none => none
    | some p2 =>
      let d2 := strEraseAt d1 p2 1
      match strFindCh s ':' with
      | some pcs =>
        match strFindCh d2 ':' with
        | none => none
        | some pc =>
          some (strInsertAt s pcs
            ([' ', '-', '>', ' '] ++ strEraseAt d2 pc (d2.length - pc)))
      | none =>
        let pb : Nat := match strFindCh s ']' with | some i => i + 1 | none => 0
        some (strInsertAt s pb ([' ', '-', '>', ' '] ++ d2))

def skipSpaces (s : List Char) : List Char := s.dropWhile (fun ch => ch = ' ')

def trimSpaces (s : List Char) : List Char := ((skipSpaces ((skipSpaces s).reverse))).reverse

def takeUntilCh (c : Char) : List Char → Option (List Char × List Char)
  | [] => none
  | x :: xs => if x = c then some ([], xs) else (takeUntilCh c xs).map (fun p => (x :: p.1, p.2))

/-- The components a successful external map parse recovers from a literal. -/
structure parsed_map_text where
  dname : List Char
  ddims : List (List Char)
  rname : List Char
  rdims : List (List Char)
  constr : Option (List Char)
  deriving DecidableEq, Repr

def readTuple (s : List Char) : Option (List Char × List (List Char) × List Char) :=
  match takeUntilCh '[' (skipSpaces s) with
  | none => none
  | some (nm, r1) =>
    match takeUntilCh ']' r1 with
    | none => none
    | some (ds, r2) => some (trimSpaces nm, (splitComma ds).map trimSpaces, r2)

def expectArrow (s : List Char) : Option (List Char) :=
  match skipSpaces s with
  | c1 :: c2 :: rest => if c1 = '-' ∧ c2 = '>' then some rest else none
  | _ => none

/-- Modelled from the spec: the external Presburger contract
parse_map(ctx, str) -> Relation of spec section 6 (isl_map_read_from_str,
whose sources are not part of the repository): read an optional parameter
tuple and arrow, a braced pair of named dimension tuples joined by an arrow,
and an optional colon-led constraint text, tolerating whitespace around
tokens; anything else is rejected. -/
def readMap (s : List Char) : Option parsed_map_text :=
  let afterParams : Option (List Char) :=
    match skipSpaces s with
    | [] => some []
    | c0 :: rest =>
      if c0 = '[' then
        match takeUntilCh ']' rest with
        | none => none
        | some (_, r1) => expectArrow r1
      else some (c0 :: rest)
  match afterParams with
  | none => none
  | some s1 =>
    match skipSpaces s1 with
    | [] => none
    | c0 :: body =>
      if c0 = '{' then
        match readTuple body with
        | none => none
        | some (dn, dd, r1) =>
          match expectArrow r1 with
          | none => none
          | some r2 =>
            match readTuple r2 with
            | none => none
            | some (rn, rd, r3) =>
              match skipSpaces r3 with
              | [] => none
              | c1 :: r4 =>
                if c1 = ':' then
                  match takeUntilCh '}' r4 with
                  | none => none
                  | some (cs, _) => some ⟨dn, dd, rn, rd, some (trimSpaces cs)⟩
                else if c1 = '}' then some ⟨dn, dd, rn, rd, none⟩
                else none
      else none

/-- The textual form isl prints for an iteration set: an optional parameter
tuple and arrow, then the braces around the named dimension tuple and the
optional colon-led constraint text. -/
def render_iter_set (ps : List (List Char)) (nm : List Char) (dims : List (List Char))
    (constr : Option (List Char)) : List Char :=
  (match ps with
   | [] => []
   | _ => '[' :: joinSep [',', ' '] ps ++ [']', ' ', '-', '>', ' ']) ++
  '{' :: ' ' :: nm ++ '[' :: joinSep [',', ' '] dims ++ [']'] ++
  (match constr with
   | some c => ' ' :: ':' :: ' ' :: c
   | none => []) ++ [' ', '}']

-- ===== generic string lemmas =====

lemma strFindCh_eq_none {c : Char} {l : List Char} (h : c ∉ l) : strFindCh l c = none := by
  induction l with
  | nil => rfl
  | cons x xs ih =>
    have hx : x ≠ c := fun e => h (e ▸ List.mem_cons_self x xs)
    simp [strFindCh, hx, ih (fun hm => h (List.mem_cons_of_mem x hm))]

lemma strFindCh_append {c : Char} {l r : List Char} (h : c ∉ l) :
    strFindCh (l ++ r) c = (strFindCh r c).map (· + l.length) := by
  induction l with
  | nil => simp
  | cons x xs ih =>
    have hx : x ≠ c := fun e => h (e ▸ List.mem_cons_self x xs)
    rw [List.cons_append]
    simp only [strFindCh, if_neg hx, ih (fun hm => h (List.mem_cons_of_mem x hm))]
    cases strFindCh r c with
    | none => rfl
    | some k =>
      simp [List.length_cons]
      omega

lemma strFindCh_prefix {c : Char} {l r : List Char} (h : c ∉ l) :
    strFindCh (l ++ c :: r) c = some l.length := by
  rw [strFindCh_append h]
  simp [strFindCh]

lemma strFindSub_arrow_append {l r : List Char} (h : '-' ∉ l) :
    strFindSub (l ++ r) ['-', '>'] = (strFindSub r ['-', '>']).map (· + l.length) := by
  induction l with
  | nil => simp
  | cons x xs ih =>
    have hx : x ≠ '-' := fun e => h (e ▸ List.mem_cons_self x xs)
    rw [List.cons_append]
    have hpre : (['-', '>'].isPrefixOf (x :: (xs ++ r))) = false := by
      simp [List.isPrefixOf]
      intro e
      exact absurd e.symm hx
    simp only [strFindSub, hpre, if_false, Bool.false_eq_true,
      ih (fun hm => h (List.mem_cons_of_mem x hm))]
    cases strFindSub r ['-', '>'] with
    | none => rfl
    | some k =>
      simp [List.length_cons]
      omega

lemma strFindSub_arrow_head (r : List Char) :
    strFindSub ('-' :: '>' :: r) ['-', '>'] = some 0 := by
  simp [strFindSub, List.isPrefixOf]

lemma strFindSub_arrow_prefix {l r : List Char} (h : '-' ∉ l) :
    strFindSub (l ++ '-' :: '>' :: r) ['-', '>'] = some l.length := by
  rw [strFindSub_arrow_append h, strFindSub_arrow_head]
  simp

lemma take_append_len_add (l r : List Char) (k : Nat) :
    (l ++ r).take (l.length + k) = l ++ r.take k := by
  induction l with
  | nil => simp
  | cons x xs ih => simp [List.take, Nat.succ_add, ih]

lemma drop_append_len_add (l r : List Char) (k : Nat) :
    (l ++ r).drop (l.length + k) = r.drop k := by
  induction l with
  | nil => simp
  | cons x xs ih => simp [List.drop, Nat.succ_add, ih]

lemma strEraseAt_boundary (l r : List Char) (len : Nat) :
    strEraseAt (l ++ r) l.length len = l ++ r.drop len := by
  have h1 : (l ++ r).take l.length = l := List.take_left l r
  have h2 : (l ++ r).drop (l.length + len) = r.drop len := drop_append_len_add l r len
  rw [strEraseAt, h1, h2]

lemma strInsertAt_boundary (l r t : List Char) :
    strInsertAt (l ++ r) l.length t = l ++ t ++ r := by
  have h1 : (l ++ r).take l.length = l := List.take_left l r
  have h2 : (l ++ r).drop l.length = r := List.drop_left l r
  rw [strInsertAt, h1, h2, List.append_assoc]

lemma takeUntilCh_prefix {c : Char} {l r : List Char} (h : c ∉ l) :
    takeUntilCh c (l ++ c :: r) = some (l, r) := by
  induction l with
  | nil => simp [takeUntilCh]
  | cons x xs ih =>
    have hx : x ≠ c := fun e => h (e ▸ List.mem_cons_self x xs)
    rw [List.cons_append]
    simp [takeUntilCh, hx, ih (fun hm => h (List.mem_cons_of_mem x hm))]

lemma skipSpaces_cons_space (x : List Char) : skipSpaces (' ' :: x) = skipSpaces x := by
  simp [skipSpaces]

lemma skipSpaces_no_space_head {c0 : Char} (x : List Char) (hc : c0 ≠ ' ') :
    skipSpaces (c0 :: x) = c0 :: x := by
  simp [skipSpaces, List.dropWhile, hc]

lemma skipSpaces_append_no_space {nm : List Char} {c0 : Char} {r : List Char}
    (h : ∀ ch ∈ nm, ch ≠ ' ') (hc : c0 ≠ ' ') :
    skipSpaces (nm ++ c0 :: r) = nm ++ c0 :: r := by
  cases nm with
  | nil => simpa using skipSpaces_no_space_head r hc
  | cons ch t =>
    have : ch ≠ ' ' := h ch (List.mem_cons_self ch t)
    simpa using skipSpaces_no_space_head (t ++ c0 :: r) this

lemma skipSpaces_append (x y : List Char) :
    skipSpaces (x ++ y) = if skipSpaces x = [] then skipSpaces y else skipSpaces x ++ y := by
  induction x with
  | nil => simp [skipSpaces]
  | cons c t ih =>
    by_cases hc : c = ' '
    · subst hc
      rw [List.cons_append, skipSpaces_cons_space, skipSpaces_cons_space, ih]
    · rw [List.cons_append, skipSpaces_no_space_head _ hc, skipSpaces_no_space_head _ hc]
      simp [hc]

lemma trimSpaces_cons_space (x : List Char) : trimSpaces (' ' :: x) = trimSpaces x := by
  simp [trimSpaces, skipSpaces_cons_space]

lemma trimSpaces_append_space (x : List Char) : trimSpaces (x ++ [' ']) = trimSpaces x := by
  rw [trimSpaces, trimSpaces, skipSpaces_append]
  by_cases h : skipSpaces x = []
  · rw [if_pos h, h]
    rfl
  · rw [if_neg h]
    rw [List.reverse_append]
    simp [skipSpaces_cons_space]

lemma trimSpaces_eq_self {x : List Char} (h : ∀ ch ∈ x, ch ≠ ' ') : trimSpaces x = x := by
  have h1 : skipSpaces x = x := by
    cases x with
    | nil => rfl
    | cons c t => exact skipSpaces_no_space_head t (h c (List.mem_cons_self c t))
  rw [trimSpaces, h1]
  have h2 : skipSpaces x.reverse = x.reverse := by
    cases hx : x.reverse with
    | nil => rfl
    | cons c t =>
      have : c ∈ x := by
        have : c ∈ x.reverse := hx ▸ List.mem_cons_self c t
        simpa using this
      exact hx ▸ skipSpaces_no_space_head t (h c this)
  rw [h2, List.reverse_reverse]

lemma mem_joinSep {ch : Char} {sep : List Char} {l : List (List Char)}
    (h : ch ∈ joinSep sep l) : ch ∈ sep ∨ ∃ x ∈ l, ch ∈ x := by
  induction l with
  | nil => simp [joinSep] at h
  | cons x xs ih =>
    cases xs with
    | nil =>
      simp [joinSep] at h
      exact Or.inr ⟨x, by simp, h⟩
    | cons y ys =>
      rw [joinSep] at h
      rcases List.mem_append.1 h with h1 | h2
      · rcases List.mem_append.1 h1 with ha | hb
        · exact Or.inr ⟨x, by simp, ha⟩
        · exact Or.inl hb
      · rcases ih h2 with hs | ⟨z, hz, hcz⟩
        · exact Or.inl hs
        · exact Or.inr ⟨z, List.mem_cons_of_mem x hz, hcz⟩

lemma splitComma_no_comma {x : List Char} (h : ',' ∉ x) : splitComma x = [x] := by
  induction x with
  | nil => rfl
  | cons c t ih =>
    have hc : c ≠ ',' := fun e => h (e ▸ List.mem_cons_self c t)
    have ht := ih (fun hm => h (List.mem_cons_of_mem c hm))
    rw [splitComma, if_neg hc, ht]

lemma splitComma_prefix {x r : List Char} (h : ',' ∉ x) :
    splitComma (x ++ ',' :: r) = x :: splitComma r := by
  induction x with
  | nil => simp [splitComma]
  | cons c t ih =>
    have hc : c ≠ ',' := fun e => h (e ▸ List.mem_cons_self c t)
    have ht := ih (fun hm => h (List.mem_cons_of_mem c hm))
    rw [List.cons_append, splitComma, if_neg hc, ht]


lemma splitComma_joinComma {dd : List (List Char)} (hne : dd ≠ [])
    (h : ∀ d ∈ dd, ',' ∉ d) : splitComma (joinSep [','] dd) = dd := by
  induction dd with
  | nil => exact absurd rfl hne
  | cons x xs ih =>
    cases xs with
    | nil =>
      rw [joinSep]
      exact splitComma_no_comma (h x (List.mem_cons_self x []))
    | cons y ys =>
      rw [joinSep]
      have hx : ',' ∉ x := h x (List.mem_cons_self x (y :: ys))
      have : x ++ [','] ++ joinSep [','] (y :: ys) = x ++ ',' :: joinSep [','] (y :: ys) := by
        simp
      rw [this, splitComma_prefix hx,
        ih (by simp) (fun d hd => h d (List.mem_cons_of_mem x hd))]

lemma splitComma_joinCS {x : List Char} {xs : List (List Char)}
    (h : ∀ d ∈ x :: xs, ',' ∉ d) :
    splitComma (joinSep [',', ' '] (x :: xs)) = x :: xs.map (fun d => ' ' :: d) := by
  induction xs generalizing x with
  | nil =>
    rw [joinSep]
    exact splitComma_no_comma (h x (List.mem_cons_self x []))
  | cons y ys ih =>
    rw [joinSep]
    have hx : ',' ∉ x := h x (List.mem_cons_self x (y :: ys))
    have e1 : x ++ [',', ' '] ++ joinSep [',', ' '] (y :: ys)
        = x ++ ',' :: (' ' :: joinSep [',', ' '] (y :: ys)) := by simp
    rw [e1, splitComma_prefix hx]
    have e2 := ih (x := y) (fun d hd => h d (List.mem_cons_of_mem x hd))
    rw [splitComma, if_neg (by decide : (' ' : Char) ≠ ','), e2]
    simp

lemma mapTrim_splitComma_joinCS {x : List Char} {xs : List (List Char)}
    (h : ∀ d ∈ x :: xs, ',' ∉ d ∧ ∀ ch ∈ d, ch ≠ ' ') :
    (splitComma (joinSep [',', ' '] (x :: xs))).map trimSpaces = x :: xs := by
  rw [splitComma_joinCS (fun d hd => (h d hd).1)]
  rw [List.map_cons, trimSpaces_eq_self (h x (List.mem_cons_self x xs)).2, List.map_map]
  congr 1
  have : ∀ d ∈ xs, (trimSpaces ∘ fun d => ' ' :: d) d = id d := by
    intro d hd
    simp only [Function.comp, id]
    rw [trimSpaces_cons_space]
    exact trimSpaces_eq_self (h d (List.mem_cons_of_mem x hd)).2
  rw [List.map_congr_left this, List.map_id]

lemma nm_append {ch : Char} {l1 l2 : List Char} (h1 : ch ∉ l1) (h2 : ch ∉ l2) :
    ch ∉ l1 ++ l2 := fun hm => (List.mem_append.1 hm).elim h1 h2

lemma nm_cons {ch x : Char} {l : List Char} (h1 : ch ≠ x) (h2 : ch ∉ l) :
    ch ∉ x :: l := by simp [h1, h2]

lemma cppFindChFrom_prefix {s P R : List Char} {c : Char} {pos : Int}
    (hs : s = P ++ c :: R) (hP : c ∉ P.drop pos.toNat)
    (h0 : 0 ≤ pos) (h1 : pos.toNat ≤ P.length) :
    cppFindChFrom s c pos = some P.length := by
  subst hs
  have hlen : pos ≤ ((P ++ c :: R).length : Int) := by
    have e : (P ++ c :: R).length = P.length + R.length + 1 := by simp; omega
    rw [e]
    push_cast
    omega
  rw [cppFindChFrom, if_pos ⟨h0, hlen⟩]
  have hd : (P ++ c :: R).drop pos.toNat = P.drop pos.toNat ++ c :: R := by
    rw [List.drop_append_eq_append_drop]
    have : pos.toNat - P.length = 0 := by omega
    rw [this, List.drop_zero]
  rw [hd, strFindCh_prefix hP]
  simp only [Option.map_some', List.length_drop]
  congr 1
  omega

lemma cppFindSubFrom_arrow {s P R : List Char} {pos : Int}
    (hs : s = P ++ '-' :: '>' :: R) (hP : '-' ∉ P.drop pos.toNat)
    (h0 : 0 ≤ pos) (h1 : pos.toNat ≤ P.length) :
    cppFindSubFrom s ['-', '>'] pos = some P.length := by
  subst hs
  have hlen : pos ≤ ((P ++ '-' :: '>' :: R).length : Int) := by
    have e : (P ++ '-' :: '>' :: R).length = P.length + R.length + 2 := by simp; omega
    rw [e]
    push_cast
    omega
  rw [cppFindSubFrom, if_pos ⟨h0, hlen⟩]
  have hd : (P ++ '-' :: '>' :: R).drop pos.toNat
      = P.drop pos.toNat ++ '-' :: '>' :: R := by
    rw [List.drop_append_eq_append_drop]
    have : pos.toNat - P.length = 0 := by omega
    rw [this, List.drop_zero]
  rw [hd, strFindSub_arrow_prefix hP]
  simp only [Option.map_some', List.length_drop]
  congr 1
  omega

lemma cppSubstr_slice {s A B R : List Char} {pos len : Int}
    (hs : s = A ++ B ++ R) (hpos : pos = A.length) (hlen : len = B.length) :
    cppSubstr s pos len = some B := by
  subst hs hpos hlen
  have h1 : (0 : Int) ≤ (A.length : Int) := Int.natCast_nonneg _
  have h2 : (A.length : Int) ≤ ((A ++ B ++ R).length : Int) := by
    simp only [List.length_append]
    omega
  rw [cppSubstr, if_pos ⟨h1, h2⟩]
  rw [if_neg (by omega : ¬ ((B.length : Int) < 0))]
  rw [Int.toNat_natCast, Int.toNat_natCast, List.append_assoc, List.drop_left,
    List.take_left]

/-- The characters a plain tuple or dimension name may use: anything except
the delimiters the literal forms are built from. -/
def plain_char (ch : Char) : Prop :=
  ch ≠ '{' ∧ ch ≠ '}' ∧ ch ≠ '[' ∧ ch ≠ ']' ∧ ch ≠ ':' ∧ ch ≠ ',' ∧ ch ≠ '-' ∧ ch ≠ ' '

instance (ch : Char) : Decidable (plain_char ch) := by
  unfold plain_char
  infer_instance

/-- The canonical polyhedral map form of claim C7:
a brace, the domain tuple name and bracketed comma-joined dimensions, an
arrow, the range tuple, a colon, the constraint text, and the closing
brace. -/
def render_map_text (dn : List Char) (dd : List (List Char)) (rn : List Char)
    (rd : List (List Char)) (c : List Char) : List Char :=
  '{' :: dn ++ '[' :: joinSep [','] dd ++ [']', ' ', '-', '>', ' '] ++ rn
    ++ '[' :: joinSep [','] rd ++ [']', ' ', ':', ' '] ++ c ++ ['}']

lemma joinComma_chars {dd : List (List Char)} {ch : Char}
    (h : ∀ d ∈ dd, ∀ x ∈ d, plain_char x) (hm : ch ∈ joinSep [','] dd) :
    ch = ',' ∨ plain_char ch := by
  rcases mem_joinSep hm with hs | ⟨x, hx, hcx⟩
  · simp at hs
    exact Or.inl hs
  · exact Or.inr (h x hx ch hcx)

lemma parser_map_on_canonical
    (dn rn c : List Char) (dd rd : List (List Char))
    (hdn : ∀ ch ∈ dn, plain_char ch)
    (hdd : ∀ d ∈ dd, ∀ ch ∈ d, plain_char ch)
    (hddne : dd ≠ [])
    (hrn : ∀ ch ∈ rn, plain_char ch)
    (hrd : ∀ d ∈ rd, ∀ ch ∈ d, plain_char ch)
    (hrdne : rd ≠ [])
    (hc2 : ∀ ch ∈ c, ch ≠ '{' ∧ ch ≠ '}') :
    parser_map_of_str (render_map_text dn dd rn rd c)
      = some ⟨[], dn, dd, ' ' :: rn, rd, splitAnd (' ' :: c)⟩ := by
  have hD : ∀ ch ∈ joinSep [','] dd, ch = ',' ∨ plain_char ch :=
    fun _ hm => joinComma_chars hdd hm
  have hR : ∀ ch ∈ joinSep [','] rd, ch = ',' ∨ plain_char ch :=
    fun _ hm => joinComma_chars hrd hm
  have hdn_rb : '}' ∉ dn := fun hm => (hdn _ hm).2.1 rfl
  have hdn_lb : '[' ∉ dn := fun hm => (hdn _ hm).2.2.1 rfl
  have hdn_rk : ']' ∉ dn := fun hm => (hdn _ hm).2.2.2.1 rfl
  have hdn_co : ':' ∉ dn := fun hm => (hdn _ hm).2.2.2.2.1 rfl
  have hdn_da : '-' ∉ dn := fun hm => (hdn _ hm).2.2.2.2.2.2.1 rfl
  have hD_rb : '}' ∉ joinSep [','] dd := fun hm =>
    (hD _ hm).elim (fun e => absurd e (by decide)) (fun hp => hp.2.1 rfl)
  have hD_lb : '[' ∉ joinSep [','] dd := fun hm =>
    (hD _ hm).elim (fun e => absurd e (by decide)) (fun hp => hp.2.2.1 rfl)
  have hD_rk : ']' ∉ joinSep [','] dd := fun hm =>
    (hD _ hm).elim (fun e => absurd e (by decide)) (fun hp => hp.2.2.2.1 rfl)
  have hD_co : ':' ∉ joinSep [','] dd := fun hm =>
    (hD _ hm).elim (fun e => absurd e (by decide)) (fun hp => hp.2.2.2.2.1 rfl)
  have hD_da : '-' ∉ joinSep [','] dd := fun hm =>
    (hD _ hm).elim (fun e => absurd e (by decide)) (fun hp => hp.2.2.2.2.2.2.1 rfl)
  have hrn_rb : '}' ∉ rn := fun hm => (hrn _ hm).2.1 rfl
  have hrn_lb : '[' ∉ rn := fun hm => (hrn _ hm).2.2.1 rfl
  have hrn_rk : ']' ∉ rn := fun hm => (hrn _ hm).2.2.2.1 rfl
  have hrn_co : ':' ∉ rn := fun hm => (hrn _ hm).2.2.2.2.1 rfl
  have hR_rb : '}' ∉ joinSep [','] rd := fun hm =>
    (hR _ hm).elim (fun e => absurd e (by decide)) (fun hp => hp.2.1 rfl)
  have hR_rk : ']' ∉ joinSep [','] rd := fun hm =>
    (hR _ hm).elim (fun e => absurd e (by decide)) (fun hp => hp.2.2.2.1 rfl)
  have hR_co : ':' ∉ joinSep [','] rd := fun hm =>
    (hR _ hm).elim (fun e => absurd e (by decide)) (fun hp => hp.2.2.2.2.1 rfl)
  have hc_rb : '}' ∉ c := fun hm => (hc2 _ hm).2 rfl
  -- the decomposition prefixes
  have F1 : strFindCh (render_map_text dn dd rn rd c) '{' = some 0 := by
    rw [render_map_text]
    simp [strFindCh]
  have e2 : render_map_text dn dd rn rd c
      = ('{' :: dn ++ '[' :: joinSep [','] dd ++ [']', ' ', '-', '>', ' '] ++ rn
          ++ '[' :: joinSep [','] rd ++ [']', ' ', ':', ' '] ++ c) ++ '}' :: [] := by
    simp [render_map_text]
  have hP2 : '}' ∉ ('{' :: dn ++ '[' :: joinSep [','] dd ++ [']', ' ', '-', '>', ' '] ++ rn
      ++ '[' :: joinSep [','] rd ++ [']', ' ', ':', ' '] ++ c) := by
    intro hm
    simp [hdn_rb, hD_rb, hrn_rb, hR_rb, hc_rb] at hm
  have F2 : strFindCh (render_map_text dn dd rn rd c) '}'
      = some ('{' :: dn ++ '[' :: joinSep [','] dd ++ [']', ' ', '-', '>', ' '] ++ rn
          ++ '[' :: joinSep [','] rd ++ [']', ' ', ':', ' '] ++ c).length := by
    rw [e2]
    exact strFindCh_prefix hP2
  have F3 : cppFindChFrom (render_map_text dn dd rn rd c) '[' (((0 : Nat) : Int) + 1)
      = some ('{' :: dn).length := by
    refine cppFindChFrom_prefix (R := joinSep [','] dd ++ [']', ' ', '-', '>', ' '] ++ rn
      ++ '[' :: joinSep [','] rd ++ [']', ' ', ':', ' '] ++ c ++ ['}']) ?_ ?_ (by omega) ?_
    · simp [render_map_text]
    · intro hm
      have := List.mem_of_mem_drop hm
      simp [hdn_lb] at this
    · simp only [List.length_cons]
      omega
  have F4 : cppFindChFrom (render_map_text dn dd rn rd c) ']' (((0 : Nat) : Int) + 1)
      = some ('{' :: dn ++ '[' :: joinSep [','] dd).length := by
    refine cppFindChFrom_prefix (R := [' ', '-', '>', ' '] ++ rn
      ++ '[' :: joinSep [','] rd ++ [']', ' ', ':', ' '] ++ c ++ ['}']) ?_ ?_ (by omega) ?_
    · simp [render_map_text]
    · intro hm
      have := List.mem_of_mem_drop hm
      simp [hdn_rk, hD_rk] at this
    · simp only [List.length_cons, List.length_append]
      omega
  have F5 : cppFindSubFrom (render_map_text dn dd rn rd c) ['-', '>']
      ((('{' :: dn ++ '[' :: joinSep [','] dd).length : Int) - 1)
      = some ('{' :: dn ++ '[' :: joinSep [','] dd ++ [']', ' ']).length := by
    refine cppFindSubFrom_arrow
      (R := ' ' :: rn ++ '[' :: joinSep [','] rd ++ [']', ' ', ':', ' '] ++ c ++ ['}'])
      ?_ ?_ ?_ ?_
    · simp [render_map_text]
    · intro hm
      have := List.mem_of_mem_drop hm
      simp [hdn_da, hD_da] at this
    · simp only [List.length_cons, List.length_append]
      omega
    · simp only [List.length_cons, List.length_append]
      omega
  have F6 : cppFindChFrom (render_map_text dn dd rn rd c) '['
      ((('{' :: dn ++ '[' :: joinSep [','] dd ++ [']', ' ']).length : Int) + 2)
      = some ('{' :: dn ++ '[' :: joinSep [','] dd ++ [']', ' ', '-', '>', ' '] ++ rn).length := by
    refine cppFindChFrom_prefix
      (R := joinSep [','] rd ++ [']', ' ', ':', ' '] ++ c ++ ['}']) ?_ ?_ ?_ ?_
    · simp [render_map_text]
    · intro hm
      rw [show ('{' :: dn ++ '[' :: joinSep [','] dd ++ [']', ' ', '-', '>', ' '] ++ rn)
          = ('{' :: dn ++ '[' :: joinSep [','] dd ++ [']', ' ', '-', '>']) ++ (' ' :: rn)
          from by simp] at hm
      rw [show ((('{' :: dn ++ '[' :: joinSep [','] dd ++ [']', ' ']).length : Int) + 2).toNat
          = ('{' :: dn ++ '[' :: joinSep [','] dd ++ [']', ' ', '-', '>']).length
          from by simp; omega] at hm
      rw [List.drop_left] at hm
      simp [hrn_lb] at hm
    · simp only [List.length_cons, List.length_append]
      omega
    · simp only [List.length_cons, List.length_append]
      omega
  have F7 : cppFindChFrom (render_map_text dn dd rn rd c) ']'
      ((('{' :: dn ++ '[' :: joinSep [','] dd ++ [']', ' ']).length : Int) + 2)
      = some ('{' :: dn ++ '[' :: joinSep [','] dd ++ [']', ' ', '-', '>', ' '] ++ rn
          ++ '[' :: joinSep [','] rd).length := by
    refine cppFindChFrom_prefix
      (R := [' ', ':', ' '] ++ c ++ ['}']) ?_ ?_ ?_ ?_
    · simp [render_map_text]
    · intro hm
      rw [show ('{' :: dn ++ '[' :: joinSep [','] dd ++ [']', ' ', '-', '>', ' '] ++ rn
            ++ '[' :: joinSep [','] rd)
          = ('{' :: dn ++ '[' :: joinSep [','] dd ++ [']', ' ', '-', '>'])
            ++ (' ' :: rn ++ '[' :: joinSep [','] rd)
          from by simp] at hm
      rw [show ((('{' :: dn ++ '[' :: joinSep [','] dd ++ [']', ' ']).length : Int) + 2).toNat
          = ('{' :: dn ++ '[' :: joinSep [','] dd ++ [']', ' ', '-', '>']).length
          from by simp; omega] at hm
      rw [List.drop_left] at hm
      simp [hrn_rk, hR_rk] at hm
    · simp only [List.length_cons, List.length_append]
      omega
    · simp only [List.length_cons, List.length_append]
      omega
  have F8 : strFindCh (render_map_text dn dd rn rd c) ':'
      = some ('{' :: dn ++ '[' :: joinSep [','] dd ++ [']', ' ', '-', '>', ' '] ++ rn
          ++ '[' :: joinSep [','] rd ++ [']', ' ']).length := by
    rw [show render_map_text dn dd rn rd c
        = ('{' :: dn ++ '[' :: joinSep [','] dd ++ [']', ' ', '-', '>', ' '] ++ rn
            ++ '[' :: joinSep [','] rd ++ [']', ' ']) ++ ':' :: (' ' :: c ++ ['}'])
        from by simp [render_map_text]]
    refine strFindCh_prefix ?_
    intro hm
    simp [hdn_co, hD_co, hrn_co, hR_co] at hm
  have S1 : cppSubstr (render_map_text dn dd rn rd c) (((0 : Nat) : Int) + 1)
      ((('{' :: dn).length : Int) - 1 - (((0 : Nat) : Int) + 1) + 1) = some dn := by
    refine cppSubstr_slice (A := ['{']) (B := dn)
      (R := '[' :: joinSep [','] dd ++ [']', ' ', '-', '>', ' '] ++ rn
        ++ '[' :: joinSep [','] rd ++ [']', ' ', ':', ' '] ++ c ++ ['}']) ?_ ?_ ?_
    · simp [render_map_text]
    · simp
    · simp only [List.length_cons, List.length_append, List.length_nil]
      push_cast
      omega
  have S2 : cppSubstr (render_map_text dn dd rn rd c) ((('{' :: dn).length : Int) + 1)
      ((('{' :: dn ++ '[' :: joinSep [','] dd).length : Int) - 1
        - ((('{' :: dn).length : Int) + 1) + 1) = some (joinSep [','] dd) := by
    refine cppSubstr_slice (A := '{' :: dn ++ ['[']) (B := joinSep [','] dd)
      (R := [']', ' ', '-', '>', ' '] ++ rn
        ++ '[' :: joinSep [','] rd ++ [']', ' ', ':', ' '] ++ c ++ ['}']) ?_ ?_ ?_
    · simp [render_map_text]
    · simp only [List.length_cons, List.length_append, List.length_nil]
      push_cast
      omega
    · simp only [List.length_cons, List.length_append, List.length_nil]
      push_cast
      omega
  have S3 : cppSubstr (render_map_text dn dd rn rd c)
      ((('{' :: dn ++ '[' :: joinSep [','] dd ++ [']', ' ']).length : Int) + 2)
      ((('{' :: dn ++ '[' :: joinSep [','] dd ++ [']', ' ', '-', '>', ' '] ++ rn).length : Int)
        - 1 - ((('{' :: dn ++ '[' :: joinSep [','] dd ++ [']', ' ']).length : Int) + 2) + 1)
      = some (' ' :: rn) := by
    refine cppSubstr_slice (A := '{' :: dn ++ '[' :: joinSep [','] dd ++ [']', ' ', '-', '>'])
      (B := ' ' :: rn)
      (R := '[' :: joinSep [','] rd ++ [']', ' ', ':', ' '] ++ c ++ ['}']) ?_ ?_ ?_
    · simp [render_map_text]
    · simp only [List.length_cons, List.length_append, List.length_nil]
      push_cast
      omega
    · simp only [List.length_cons, List.length_append, List.length_nil]
      push_cast
      omega
  have S4 : cppSubstr (render_map_text dn dd rn rd c)
      ((('{' :: dn ++ '[' :: joinSep [','] dd ++ [']', ' ', '-', '>', ' '] ++ rn).length : Int) + 1)
      ((('{' :: dn ++ '[' :: joinSep [','] dd ++ [']', ' ', '-', '>', ' '] ++ rn
          ++ '[' :: joinSep [','] rd).length : Int) - 1
        - ((('{' :: dn ++ '[' :: joinSep [','] dd ++ [']', ' ', '-', '>', ' '] ++ rn).length : Int)
            + 1) + 1)
      = some (joinSep [','] rd) := by
    refine cppSubstr_slice
      (A := '{' :: dn ++ '[' :: joinSep [','] dd ++ [']', ' ', '-', '>', ' '] ++ rn ++ ['['])
      (B := joinSep [','] rd)
      (R := [']', ' ', ':', ' '] ++ c ++ ['}']) ?_ ?_ ?_
    · simp [render_map_text]
    · simp only [List.length_cons, List.length_append, List.length_nil]
      push_cast
      omega
    · simp only [List.length_cons, List.length_append, List.length_nil]
      push_cast
      omega
  have S5 : cppSubstr (render_map_text dn dd rn rd c)
      ((('{' :: dn ++ '[' :: joinSep [','] dd ++ [']', ' ', '-', '>', ' '] ++ rn
          ++ '[' :: joinSep [','] rd ++ [']', ' ']).length : Int) + 1)
      ((('{' :: dn ++ '[' :: joinSep [','] dd ++ [']', ' ', '-', '>', ' '] ++ rn
          ++ '[' :: joinSep [','] rd ++ [']', ' ', ':', ' '] ++ c).length : Int) - 1
        - ((('{' :: dn ++ '[' :: joinSep [','] dd ++ [']', ' ', '-', '>', ' '] ++ rn
            ++ '[' :: joinSep [','] rd ++ [']', ' ']).length : Int) + 1) + 1)
      = some (' ' :: c) := by
    refine cppSubstr_slice
      (A := '{' :: dn ++ '[' :: joinSep [','] dd ++ [']', ' ', '-', '>', ' '] ++ rn
        ++ '[' :: joinSep [','] rd ++ [']', ' ', ':'])
      (B := ' ' :: c)
      (R := ['}']) ?_ ?_ ?_
    · simp [render_map_text]
    · simp only [List.length_cons, List.length_append, List.length_nil]
      push_cast
      omega
    · simp only [List.length_cons, List.length_append, List.length_nil]
      push_cast
      omega
  simp only [parser_map_of_str, F1, F2, F3, F4, F5, F6, F7, F8, S1, S2, S3, S4, S5]
  rw [if_neg (by omega)]
  rw [if_neg (by simp only [List.length_cons, List.length_append, List.length_nil]; push_cast; omega)]
  rw [if_neg (by omega)]
  rw [if_neg (by simp only [List.length_cons, List.length_append, List.length_nil]; push_cast; omega)]
  rw [if_neg (by omega)]
  rw [if_neg (by omega)]
  rw [if_neg (by simp only [List.length_cons, List.length_append, List.length_nil]; push_cast; omega)]
  rw [if_neg (by simp)]
  rw [splitComma_joinComma hddne (fun d hd hm => (hdd d hd _ hm).2.2.2.2.2.1 rfl),
      splitComma_joinComma hrdne (fun d hd hm => (hrd d hd _ hm).2.2.2.2.2.1 rfl)]

lemma readTuple_cons_space (s : List Char) : readTuple (' ' :: s) = readTuple s := by
  simp only [readTuple, skipSpaces_cons_space]

lemma expectArrow_cons_space (s : List Char) : expectArrow (' ' :: s) = expectArrow s := by
  simp only [expectArrow, skipSpaces_cons_space]

lemma readTuple_canonical {nm J R : List Char}
    (hnm_sp : ∀ ch ∈ nm, ch ≠ ' ') (hnm_lb : '[' ∉ nm) (hJ_rk : ']' ∉ J) :
    readTuple (nm ++ '[' :: (J ++ ']' :: R))
      = some (trimSpaces nm, (splitComma J).map trimSpaces, R) := by
  rw [readTuple, skipSpaces_append_no_space hnm_sp (by decide), takeUntilCh_prefix hnm_lb]
  simp only [ takeUntilCh_prefix hJ_rk]

lemma expectArrow_canonical (rest : List Char) :
    expectArrow ('-' :: '>' :: rest) = some rest := by
  rw [expectArrow, skipSpaces_no_space_head _ (by decide)]
  simp

lemma readMap_identity_shape {nm J nm2 J2 tail : List Char}
    (h1 : ∀ ch ∈ nm, ch ≠ ' ') (h2 : '[' ∉ nm) (h3 : ']' ∉ J)
    (h4 : ∀ ch ∈ nm2, ch ≠ ' ') (h5 : '[' ∉ nm2) (h6 : ']' ∉ J2) :
    readMap ('{' :: (' ' :: (nm ++ '[' :: (J ++ ']' ::
        (' ' :: '-' :: '>' :: ' ' :: (' ' :: (nm2 ++ '[' :: (J2 ++ ']' :: tail))))))))
      = match skipSpaces tail with
        | [] => none
        | c1 :: r4 =>
          if c1 = ':' then
            match takeUntilCh '}' r4 with
            | none => none
            | some (cs, _) => some ⟨trimSpaces nm, (splitComma J).map trimSpaces,
                trimSpaces nm2, (splitComma J2).map trimSpaces, some (trimSpaces cs)⟩
          else if c1 = '}' then
            some ⟨trimSpaces nm, (splitComma J).map trimSpaces,
              trimSpaces nm2, (splitComma J2).map trimSpaces, none⟩
          else none := by
  have T1 := readTuple_canonical
    (R := ' ' :: '-' :: '>' :: ' ' :: (' ' :: (nm2 ++ '[' :: (J2 ++ ']' :: tail)))) h1 h2 h3
  have T2 := readTuple_canonical (R := tail) h4 h5 h6
  simp [readMap, skipSpaces, readTuple_cons_space, expectArrow_cons_space,
    expectArrow_canonical, T1, T2]

lemma set_identity_none_case (nm : List Char) (dims : List (List Char))
    (hnm : ∀ ch ∈ nm, plain_char ch)
    (hdims : ∀ d ∈ dims, ∀ ch ∈ d, plain_char ch)
    (hdne : dims ≠ []) :
    (set_identity_schedule_str (render_iter_set [] nm dims none)).bind readMap
      = some ⟨nm, dims, nm, dims, none⟩ := by
  have hJ : ∀ ch ∈ joinSep [',', ' '] dims, ch = ',' ∨ ch = ' ' ∨ plain_char ch := by
    intro ch hm
    rcases mem_joinSep hm with hs | ⟨x, hx, hcx⟩
    · simp at hs
      rcases hs with h | h
      · exact Or.inl h
      · exact Or.inr (Or.inl h)
    · exact Or.inr (Or.inr (hdims x hx ch hcx))
  have hnm_sp : ∀ ch ∈ nm, ch ≠ ' ' := fun ch hm => (hnm ch hm).2.2.2.2.2.2.2
  have hnm_lb : '[' ∉ nm := fun hm => (hnm _ hm).2.2.1 rfl
  have hnm_rk : ']' ∉ nm := fun hm => (hnm _ hm).2.2.2.1 rfl
  have hnm_rb : '}' ∉ nm := fun hm => (hnm _ hm).2.1 rfl
  have hnm_co : ':' ∉ nm := fun hm => (hnm _ hm).2.2.2.2.1 rfl
  have hJ_rb : '}' ∉ joinSep [',', ' '] dims := fun hm =>
    (hJ _ hm).elim (fun e => absurd e (by decide))
      (fun h => h.elim (fun e => absurd e (by decide)) (fun hp => hp.2.1 rfl))
  have hJ_rk : ']' ∉ joinSep [',', ' '] dims := fun hm =>
    (hJ _ hm).elim (fun e => absurd e (by decide))
      (fun h => h.elim (fun e => absurd e (by decide)) (fun hp => hp.2.2.2.1 rfl))
  have hJ_lb : '[' ∉ joinSep [',', ' '] dims := fun hm =>
    (hJ _ hm).elim (fun e => absurd e (by decide))
      (fun h => h.elim (fun e => absurd e (by decide)) (fun hp => hp.2.2.1 rfl))
  have hJ_co : ':' ∉ joinSep [',', ' '] dims := fun hm =>
    (hJ _ hm).elim (fun e => absurd e (by decide))
      (fun h => h.elim (fun e => absurd e (by decide)) (fun hp => hp.2.2.2.2.1 rfl))
  have G1 : strFindCh (render_iter_set [] nm dims none) '{' = some 0 := by
    simp [render_iter_set, strFindCh]
  have e_d1 : strEraseAt (render_iter_set [] nm dims none) 0 1
      = (' ' :: nm ++ '[' :: joinSep [',', ' '] dims ++ [']', ' ']) ++ '}' :: [] := by
    simp [strEraseAt, render_iter_set]
  have G2 : strFindCh ((' ' :: nm ++ '[' :: joinSep [',', ' '] dims ++ [']', ' ']) ++ '}' :: []) '}'
      = some (' ' :: nm ++ '[' :: joinSep [',', ' '] dims ++ [']', ' ']).length := by
    refine strFindCh_prefix ?_
    intro hm
    simp [hnm_rb, hJ_rb] at hm
  have e_d2 : strEraseAt ((' ' :: nm ++ '[' :: joinSep [',', ' '] dims ++ [']', ' ']) ++ '}' :: [])
      (' ' :: nm ++ '[' :: joinSep [',', ' '] dims ++ [']', ' ']).length 1
      = ' ' :: nm ++ '[' :: joinSep [',', ' '] dims ++ [']', ' '] := by
    have := strEraseAt_boundary (' ' :: nm ++ '[' :: joinSep [',', ' '] dims ++ [']', ' '])
      ('}' :: []) 1
    simpa using this
  have G3 : strFindCh (render_iter_set [] nm dims none) ':' = none := by
    apply strFindCh_eq_none
    intro hm
    simp [render_iter_set, hnm_co, hJ_co] at hm
  have G4 : strFindCh (render_iter_set [] nm dims none) ']'
      = some ('{' :: ' ' :: nm ++ '[' :: joinSep [',', ' '] dims).length := by
    rw [show render_iter_set [] nm dims none
        = ('{' :: ' ' :: nm ++ '[' :: joinSep [',', ' '] dims) ++ ']' :: [' ', '}']
        from by simp [render_iter_set]]
    refine strFindCh_prefix ?_
    intro hm
    simp [hnm_rk, hJ_rk] at hm
  have G5 : strInsertAt (render_iter_set [] nm dims none)
      (('{' :: ' ' :: nm ++ '[' :: joinSep [',', ' '] dims).length + 1)
      ([' ', '-', '>', ' '] ++ (' ' :: nm ++ '[' :: joinSep [',', ' '] dims ++ [']', ' ']))
      = ('{' :: ' ' :: nm ++ '[' :: joinSep [',', ' '] dims ++ [']'])
        ++ ([' ', '-', '>', ' '] ++ (' ' :: nm ++ '[' :: joinSep [',', ' '] dims ++ [']', ' ']))
        ++ [' ', '}'] := by
    rw [show render_iter_set [] nm dims none
        = ('{' :: ' ' :: nm ++ '[' :: joinSep [',', ' '] dims ++ [']']) ++ [' ', '}']
        from by simp [render_iter_set]]
    rw [show ('{' :: ' ' :: nm ++ '[' :: joinSep [',', ' '] dims).length + 1
        = ('{' :: ' ' :: nm ++ '[' :: joinSep [',', ' '] dims ++ [']']).length
        from by simp; omega]
    exact strInsertAt_boundary _ _ _
  simp only [set_identity_schedule_str, G1, e_d1, G2, e_d2, G3, G4, G5]
  simp only [Option.some_bind]
  rw [show ('{' :: ' ' :: nm ++ '[' :: joinSep [',', ' '] dims ++ [']'] ++
        ([' ', '-', '>', ' '] ++ (' ' :: nm ++ '[' :: joinSep [',', ' '] dims ++ [']', ' '])) ++
        [' ', '}'])
      = ('{' :: (' ' :: (nm ++ '[' :: (joinSep [',', ' '] dims ++ ']' ::
          (' ' :: '-' :: '>' :: ' ' :: (' ' :: (nm ++ '[' :: (joinSep [',', ' '] dims ++ ']' ::
            (' ' :: ' ' :: '}' :: [])))))))))
      from by simp]
  rw [readMap_identity_shape hnm_sp hnm_lb hJ_rk hnm_sp hnm_lb hJ_rk]
  simp only [skipSpaces, List.dropWhile]
  norm_num
  rw [trimSpaces_eq_self hnm_sp]
  obtain ⟨d0, dtl, rfl⟩ : ∃ d0 dtl, dims = d0 :: dtl := by
    cases dims with
    | nil => exact absurd rfl hdne
    | cons a b => exact ⟨a, b, rfl⟩
  rw [mapTrim_splitComma_joinCS (fun d hd => ⟨fun hm => (hdims d hd _ hm).2.2.2.2.2.1 rfl,
    fun ch hm => (hdims d hd ch hm).2.2.2.2.2.2.2⟩)]
  rfl

lemma readMap_identity_shape2 {nm J nm2 J2 tail : List Char}
    (h1 : ∀ ch ∈ nm, ch ≠ ' ') (h2 : '[' ∉ nm) (h3 : ']' ∉ J)
    (h4 : ∀ ch ∈ nm2, ch ≠ ' ') (h5 : '[' ∉ nm2) (h6 : ']' ∉ J2) :
    readMap ('{' :: (' ' :: (nm ++ '[' :: (J ++ ']' ::
        (' ' :: ' ' :: '-' :: '>' :: ' ' :: (' ' :: (nm2 ++ '[' :: (J2 ++ ']' :: tail))))))))
      = match skipSpaces tail with
        | [] => none
        | c1 :: r4 =>
          if c1 = ':' then
            match takeUntilCh '}' r4 with
            | none => none
            | some (cs, _) => some ⟨trimSpaces nm, (splitComma J).map trimSpaces,
                trimSpaces nm2, (splitComma J2).map trimSpaces, some (trimSpaces cs)⟩
          else if c1 = '}' then
            some ⟨trimSpaces nm, (splitComma J).map trimSpaces,
              trimSpaces nm2, (splitComma J2).map trimSpaces, none⟩
          else none := by
  have T1 := readTuple_canonical
    (R := ' ' :: ' ' :: '-' :: '>' :: ' ' :: (' ' :: (nm2 ++ '[' :: (J2 ++ ']' :: tail))))
    h1 h2 h3
  have T2 := readTuple_canonical (R := tail) h4 h5 h6
  simp [readMap, skipSpaces, readTuple_cons_space, expectArrow_cons_space,
    expectArrow_canonical, T1, T2]

lemma set_identity_some_case (nm : List Char) (dims : List (List Char)) (c : List Char)
    (hnm : ∀ ch ∈ nm, plain_char ch)
    (hdims : ∀ d ∈ dims, ∀ ch ∈ d, plain_char ch)
    (hdne : dims ≠ [])
    (hcc : ∀ ch ∈ c, ch ≠ '}')
    (htrim : trimSpaces c = c) :
    (set_identity_schedule_str (render_iter_set [] nm dims (some c))).bind readMap
      = some ⟨nm, dims, nm, dims, some c⟩ := by
  have hJ : ∀ ch ∈ joinSep [',', ' '] dims, ch = ',' ∨ ch = ' ' ∨ plain_char ch := by
    intro ch hm
    rcases mem_joinSep hm with hs | ⟨x, hx, hcx⟩
    · simp at hs
      rcases hs with h | h
      · exact Or.inl h
      · exact Or.inr (Or.inl h)
    · exact Or.inr (Or.inr (hdims x hx ch hcx))
  have hnm_sp : ∀ ch ∈ nm, ch ≠ ' ' := fun ch hm => (hnm ch hm).2.2.2.2.2.2.2
  have hnm_lb : '[' ∉ nm := fun hm => (hnm _ hm).2.2.1 rfl
  have hnm_rk : ']' ∉ nm := fun hm => (hnm _ hm).2.2.2.1 rfl
  have hnm_rb : '}' ∉ nm := fun hm => (hnm _ hm).2.1 rfl
  have hnm_co : ':' ∉ nm := fun hm => (hnm _ hm).2.2.2.2.1 rfl
  have hJ_rb : '}' ∉ joinSep [',', ' '] dims := fun hm =>
    (hJ _ hm).elim (fun e => absurd e (by decide))
      (fun h => h.elim (fun e => absurd e (by decide)) (fun hp => hp.2.1 rfl))
  have hJ_rk : ']' ∉ joinSep [',', ' '] dims := fun hm =>
    (hJ _ hm).elim (fun e => absurd e (by decide))
      (fun h => h.elim (fun e => absurd e (by decide)) (fun hp => hp.2.2.2.1 rfl))
  have hJ_lb : '[' ∉ joinSep [',', ' '] dims := fun hm =>
    (hJ _ hm).elim (fun e => absurd e (by decide))
      (fun h => h.elim (fun e => absurd e (by decide)) (fun hp => hp.2.2.1 rfl))
  have hJ_co : ':' ∉ joinSep [',', ' '] dims := fun hm =>
    (hJ _ hm).elim (fun e => absurd e (by decide))
      (fun h => h.elim (fun e => absurd e (by decide)) (fun hp => hp.2.2.2.2.1 rfl))
  have G1 : strFindCh (render_iter_set [] nm dims (some c)) '{' = some 0 := by
    simp [render_iter_set, strFindCh]
  have e_d1 : strEraseAt (render_iter_set [] nm dims (some c)) 0 1
      = (' ' :: nm ++ '[' :: joinSep [',', ' '] dims ++ [']', ' ', ':', ' '] ++ c ++ [' '])
        ++ '}' :: [] := by
    simp [strEraseAt, render_iter_set]
  have G2 : strFindCh ((' ' :: nm ++ '[' :: joinSep [',', ' '] dims ++ [']', ' ', ':', ' ']
        ++ c ++ [' ']) ++ '}' :: []) '}'
      = some (' ' :: nm ++ '[' :: joinSep [',', ' '] dims ++ [']', ' ', ':', ' ']
          ++ c ++ [' ']).length := by
    refine strFindCh_prefix ?_
    intro hm
    simp [hnm_rb, hJ_rb] at hm
    exact hcc _ hm rfl
  have e_d2 : strEraseAt ((' ' :: nm ++ '[' :: joinSep [',', ' '] dims ++ [']', ' ', ':', ' ']
        ++ c ++ [' ']) ++ '}' :: [])
      (' ' :: nm ++ '[' :: joinSep [',', ' '] dims ++ [']', ' ', ':', ' '] ++ c ++ [' ']).length 1
      = ' ' :: nm ++ '[' :: joinSep [',', ' '] dims ++ [']', ' ', ':', ' '] ++ c ++ [' '] := by
    have := strEraseAt_boundary
      (' ' :: nm ++ '[' :: joinSep [',', ' '] dims ++ [']', ' ', ':', ' '] ++ c ++ [' '])
      ('}' :: []) 1
    simpa using this
  have G3 : strFindCh (render_iter_set [] nm dims (some c)) ':'
      = some ('{' :: ' ' :: nm ++ '[' :: joinSep [',', ' '] dims ++ [']', ' ']).length := by
    rw [show render_iter_set [] nm dims (some c)
        = ('{' :: ' ' :: nm ++ '[' :: joinSep [',', ' '] dims ++ [']', ' '])
          ++ ':' :: (' ' :: c ++ [' ', '}'])
        from by simp [render_iter_set]]
    refine strFindCh_prefix ?_
    intro hm
    simp [hnm_co, hJ_co] at hm
  have G4 : strFindCh (' ' :: nm ++ '[' :: joinSep [',', ' '] dims ++ [']', ' ', ':', ' ']
        ++ c ++ [' ']) ':'
      = some (' ' :: nm ++ '[' :: joinSep [',', ' '] dims ++ [']', ' ']).length := by
    rw [show (' ' :: nm ++ '[' :: joinSep [',', ' '] dims ++ [']', ' ', ':', ' '] ++ c ++ [' '])
        = (' ' :: nm ++ '[' :: joinSep [',', ' '] dims ++ [']', ' '])
          ++ ':' :: (' ' :: c ++ [' '])
        from by simp]
    refine strFindCh_prefix ?_
    intro hm
    simp [hnm_co, hJ_co] at hm
  have G5 : strEraseAt (' ' :: nm ++ '[' :: joinSep [',', ' '] dims ++ [']', ' ', ':', ' ']
        ++ c ++ [' '])
      (' ' :: nm ++ '[' :: joinSep [',', ' '] dims ++ [']', ' ']).length
      ((' ' :: nm ++ '[' :: joinSep [',', ' '] dims ++ [']', ' ', ':', ' ']
        ++ c ++ [' ']).length
        - (' ' :: nm ++ '[' :: joinSep [',', ' '] dims ++ [']', ' ']).length)
      = ' ' :: nm ++ '[' :: joinSep [',', ' '] dims ++ [']', ' '] := by
    rw [show (' ' :: nm ++ '[' :: joinSep [',', ' '] dims ++ [']', ' ', ':', ' '] ++ c ++ [' '])
        = (' ' :: nm ++ '[' :: joinSep [',', ' '] dims ++ [']', ' '])
          ++ (':' :: (' ' :: c ++ [' ']))
        from by simp]
    rw [strEraseAt_boundary]
    rw [show ((' ' :: nm ++ '[' :: joinSep [',', ' '] dims ++ [']', ' '])
          ++ (':' :: (' ' :: c ++ [' ']))).length
        - (' ' :: nm ++ '[' :: joinSep [',', ' '] dims ++ [']', ' ']).length
        = (':' :: (' ' :: c ++ [' '])).length
        from by simp; omega]
    rw [List.drop_length, List.append_nil]
  have G6 : strInsertAt (render_iter_set [] nm dims (some c))
      ('{' :: ' ' :: nm ++ '[' :: joinSep [',', ' '] dims ++ [']', ' ']).length
      ([' ', '-', '>', ' '] ++ (' ' :: nm ++ '[' :: joinSep [',', ' '] dims ++ [']', ' ']))
      = ('{' :: ' ' :: nm ++ '[' :: joinSep [',', ' '] dims ++ [']', ' '])
        ++ ([' ', '-', '>', ' '] ++ (' ' :: nm ++ '[' :: joinSep [',', ' '] dims ++ [']', ' ']))
        ++ ':' :: (' ' :: c ++ [' ', '}']) := by
    rw [show render_iter_set [] nm dims (some c)
        = ('{' :: ' ' :: nm ++ '[' :: joinSep [',', ' '] dims ++ [']', ' '])
          ++ ':' :: (' ' :: c ++ [' ', '}'])
        from by simp [render_iter_set]]
    exact strInsertAt_boundary _ _ _
  simp only [set_identity_schedule_str, G1, e_d1, G2, e_d2, G3, G4, G5, G6]
  simp only [Option.some_bind]
  rw [show ('{' :: ' ' :: nm ++ '[' :: joinSep [',', ' '] dims ++ [']', ' '] ++
        ([' ', '-', '>', ' '] ++ (' ' :: nm ++ '[' :: joinSep [',', ' '] dims ++ [']', ' '])) ++
        ':' :: (' ' :: c ++ [' ', '}']))
      = ('{' :: (' ' :: (nm ++ '[' :: (joinSep [',', ' '] dims ++ ']' ::
          (' ' :: ' ' :: '-' :: '>' :: ' ' :: (' ' :: (nm ++ '[' :: (joinSep [',', ' '] dims ++ ']' ::
            (' ' :: ':' :: ' ' :: c ++ [' ', '}'])))))))))
      from by simp]
  rw [readMap_identity_shape2 hnm_sp hnm_lb hJ_rk hnm_sp hnm_lb hJ_rk]
  rw [show ((' ' :: ':' :: ' ' :: c) ++ [' ', '}'])
      = ' ' :: (':' :: ((' ' :: c) ++ [' ', '}'])) from by simp]
  rw [skipSpaces_cons_space]
  rw [skipSpaces_no_space_head _ (by decide : (':' : Char) ≠ ' ')]
  rw [show ((' ' :: c) ++ [' ', '}']) = ((' ' :: c) ++ [' ']) ++ '}' :: [] from by simp]
  have TK : takeUntilCh '}' (((' ' :: c) ++ [' ']) ++ '}' :: [])
      = some ((' ' :: c) ++ [' '], []) :=
    takeUntilCh_prefix
      (nm_append (nm_cons (by decide) (fun hmc => hcc _ hmc rfl)) (by decide))
  simp only [TK, eq_self_iff_true, if_true]
  rw [show ((' ' :: c) ++ [' ']) = ' ' :: (c ++ [' ']) from by simp]
  rw [trimSpaces_cons_space, trimSpaces_append_space, htrim]
  rw [trimSpaces_eq_self hnm_sp]
  obtain ⟨d0, dtl, rfl⟩ : ∃ d0 dtl, dims = d0 :: dtl := by
    cases dims with
    | nil => exact absurd rfl hdne
    | cons a b => exact ⟨a, b, rfl⟩
  rw [mapTrim_splitComma_joinCS (fun d hd => ⟨fun hm => (hdims d hd _ hm).2.2.2.2.2.1 rfl,
    fun ch hm => (hdims d hd ch hm).2.2.2.2.2.2.2⟩)]



/-- C7: for input text in the canonical polyhedral map form
with a constraint part and no parameter prefix, the literal parser
splits it into the domain tuple name, the domain dimension names, the
range tuple name and dimension names, and the constraint list obtained
by splitting the constraint text at the conjunction separator — but the
parameter list is always left empty, the range name keeps the blank that
follows the arrow, and the constraint pieces keep their surrounding
blanks; the set form without an arrow is rejected by the parser's
assertion rather than split (see the counterexample). -/
theorem C7_literal_parser_components
    (dn rn c : List Char) (dd rd : List (List Char))
    (hdn : ∀ ch ∈ dn, plain_char ch)
    (hdd : ∀ d ∈ dd, ∀ ch ∈ d, plain_char ch)
    (hddne : dd ≠ [])
    (hrn : ∀ ch ∈ rn, plain_char ch)
    (hrd : ∀ d ∈ rd, ∀ ch ∈ d, plain_char ch)
    (hrdne : rd ≠ [])
    (hc2 : ∀ ch ∈ c, ch ≠ '{' ∧ ch ≠ '}') :
    parser_map_of_str (render_map_text dn dd rn rd c)
      = some ⟨[], dn, dd, ' ' :: rn, rd, splitAnd (' ' :: c)⟩ :=
  parser_map_on_canonical dn rn c dd rd hdn hdd hddne hrn hrd hrdne hc2

/-- C7 counterexample: the set form (here the iteration set of
tutorial_01) makes parser::map::map store find("->") as -1 in an int,
and the assertion comparing it with npos fails: the parser rejects the
set form instead of splitting it. -/
theorem C7_literal_parser_set_form_counterexample :
    parser_map_of_str (('{' :: ("S0[i,j] : 0 <= i <= 1000").toList) ++ ['}']) = none := by
  decide

theorem C7_literal_parser_components_witness :
    parser_map_of_str (render_map_text ("S0").toList [("i").toList, ("j").toList]
        ("buf0").toList [("i").toList, ("j").toList] ("0 <= i and i <= 9").toList)
      = some ⟨[], ("S0").toList, [("i").toList, ("j").toList], ' ' :: ("buf0").toList,
          [("i").toList, ("j").toList], splitAnd (' ' :: ("0 <= i and i <= 9").toList)⟩ :=
  C7_literal_parser_components _ _ _ _ _ (by decide) (by decide) (by decide)
    (by decide) (by decide) (by decide) (by decide)

/-- C3: for an iteration set WITHOUT a parameter list (with or without a
constraint part), set_identity_schedule edits the textual form into the
identity relation on the set's tuple: reading the edited text back
yields the map with equal domain and range tuple name and dimensions
and the original constraint text. For a set WITH a parameter list the
edit is wrong (see the counterexample), so the claim is corrected to
exclude that case. -/
theorem C3_identity_schedule_from_text
    (nm : List Char) (dims : List (List Char)) (constr : Option (List Char))
    (hnm : ∀ ch ∈ nm, plain_char ch)
    (hdims : ∀ d ∈ dims, ∀ ch ∈ d, plain_char ch)
    (hdne : dims ≠ [])
    (hc : ∀ cc, constr = some cc → ((∀ ch ∈ cc, ch ≠ '}') ∧ trimSpaces cc = cc)) :
    (set_identity_schedule_str (render_iter_set [] nm dims constr)).bind readMap
      = some ⟨nm, dims, nm, dims, constr⟩ := by
  cases constr with
  | none => exact set_identity_none_case nm dims hnm hdims hdne
  | some cc =>
    exact set_identity_some_case nm dims cc hnm hdims hdne (hc cc rfl).1 (hc cc rfl).2

/-- C3 counterexample: on the parameterised set [N] -> { S0[i] : 0 <= i < N }
set_identity_schedule inserts the arrow and domain copy right after the
FIRST closing bracket, which is the one closing the parameter list; the
edited text [N] -> { S0[i]  -> [N] ->  S0[i] : 0 <= i < N } is not the
identity relation on S0 (it does not read back as that map at all). -/
theorem C3_identity_schedule_param_counterexample :
    (set_identity_schedule_str
        (render_iter_set [("N").toList] ("S0").toList [("i").toList]
          (some ("0 <= i < N").toList))).bind readMap
      ≠ some ⟨("S0").toList, [("i").toList], ("S0").toList, [("i").toList],
          some ("0 <= i < N").toList⟩ := by
  decide

theorem C3_identity_schedule_from_text_witness :
    (set_identity_schedule_str (render_iter_set [] ("S0").toList
        [("i").toList, ("j").toList] (some ("0 <= i <= 1000").toList))).bind readMap
      = some ⟨("S0").toList, [("i").toList, ("j").toList], ("S0").toList,
          [("i").toList, ("j").toList], some ("0 <= i <= 1000").toList⟩ :=
  C3_identity_schedule_from_text _ _ _ (by decide) (by decide) (by decide)
    (by intro cc hcc; cases hcc; exact ⟨by decide, by decide⟩)

end Tiramisu
